import Mathlib

/-
  Verification of the Interactive-Data-Visualization-JS core pipeline:
  a shallow embedding of the data-loading engine (DataEngine.js), the CSV
  parser, the LOD selector, the quadtree spatial index and the zoom/pan
  controller, together with proofs of the documented behavioural claims.

  Numeric coordinates and zoom scales are modelled over the exact rationals;
  wall-clock durations are modelled as explicit natural-number timestamps.
-/

set_option maxHeartbeats 1000000

namespace IDV

/-! ### Level-of-detail selector (LODManager.updateLOD) -/

inductive LODLevel where
  | high
  | medium
  | low
deriving DecidableEq, Repr

/-- Embedding of LODManager.updateLOD: picks the fidelity tier from the
current zoom level and the dataset size. -/
def LODManager.updateLOD (zoomLevel : ℚ) (dataSize : Nat) : LODLevel :=
  if 50000 < dataSize ∨ zoomLevel < (0.5 : ℚ) then LODLevel.low
  else if 10000 < dataSize ∨ zoomLevel < (1 : ℚ) then LODLevel.medium
  else LODLevel.high

/-- The volume threshold above which the low tier is forced. -/
def highVolumeThreshold : Nat := 50000

/-- The zoom threshold below which the low tier is forced. -/
def lowZoomThreshold : ℚ := 0.5

/-- The volume threshold above which at least the medium tier is forced. -/
def midVolumeThreshold : Nat := 10000

/-- The zoom threshold below which at least the medium tier is forced. -/
def midZoomThreshold : ℚ := 1

/-- C4: the LOD selector returns the low tier exactly when the dataset size
exceeds the high-volume threshold or the scale is below the low-zoom
threshold; otherwise the medium tier exactly when the dataset size exceeds
the mid-volume threshold or the scale is below the mid-zoom threshold;
otherwise the high tier; the low-tier conditions take precedence.  In
particular selecting at dataset size 60000 yields the low tier regardless
of scale. -/
theorem lod_tier_selection_policy (scale : ℚ) (dataSize : Nat) :
    (LODManager.updateLOD scale dataSize = LODLevel.low ↔
      (highVolumeThreshold < dataSize ∨ scale < lowZoomThreshold)) ∧
    (LODManager.updateLOD scale dataSize = LODLevel.medium ↔
      (¬(highVolumeThreshold < dataSize ∨ scale < lowZoomThreshold) ∧
        (midVolumeThreshold < dataSize ∨ scale < midZoomThreshold))) ∧
    (LODManager.updateLOD scale dataSize = LODLevel.high ↔
      (¬(highVolumeThreshold < dataSize ∨ scale < lowZoomThreshold) ∧
        ¬(midVolumeThreshold < dataSize ∨ scale < midZoomThreshold))) ∧
    LODManager.updateLOD scale 60000 = LODLevel.low := by
  unfold LODManager.updateLOD highVolumeThreshold lowZoomThreshold
    midVolumeThreshold midZoomThreshold
  refine ⟨?_, ?_, ?_, ?_⟩ <;> split_ifs with h₁ h₂ <;> simp_all

/-! ### Viewport zoom controller (ZoomPanController.zoomAt) -/

structure Transform where
  x : ℚ
  y : ℚ
  scale : ℚ
deriving DecidableEq, Repr

structure ScreenPt where
  x : ℚ
  y : ℚ
deriving DecidableEq, Repr

/-- Lower zoom limit used by ZoomPanController.zoomAt. -/
def minZoom : ℚ := 0.1

/-- Upper zoom limit used by ZoomPanController.zoomAt. -/
def maxZoom : ℚ := 10

/-- Embedding of ZoomPanController.zoomAt: rejects the zoom when the new
scale leaves the zoom limits, otherwise rescales and re-anchors the offset
at the given screen point. -/
def ZoomPanController.zoomAt (t : Transform) (x y scaleFactor : ℚ) : Transform :=
  let newScale := t.scale * scaleFactor
  if newScale < minZoom ∨ maxZoom < newScale then t
  else
    { x := x - (x - t.x) * scaleFactor,
      y := y - (y - t.y) * scaleFactor,
      scale := newScale }

/-- Modelled from the spec: toScreen is absent from the sources; the spec
gives the composition rule screen = world * scale + offset. -/
def Transform.toScreen (t : Transform) (w : ScreenPt) : ScreenPt :=
  ⟨w.x * t.scale + t.x, w.y * t.scale + t.y⟩

/-- Modelled from the spec: toWorld is absent from the sources; it is the
exact inverse of the composition rule screen = world * scale + offset. -/
def Transform.toWorld (t : Transform) (s : ScreenPt) : ScreenPt :=
  ⟨(s.x - t.x) / t.scale, (s.y - t.y) / t.scale⟩

/-- C7: when the resulting scale stays inside the zoom limits, zoomAt
re-solves the offsets by the anchor formula and the world point under the
anchored screen point stays under that screen point; when the resulting
scale leaves the limits, zoomAt is a no-op. -/
theorem zoomAt_anchor_preserving (t : Transform) (sx sy f : ℚ)
    (hs : t.scale ≠ 0) :
    ((minZoom ≤ t.scale * f ∧ t.scale * f ≤ maxZoom) →
      (ZoomPanController.zoomAt t sx sy f).x = sx - (sx - t.x) * f ∧
      (ZoomPanController.zoomAt t sx sy f).y = sy - (sy - t.y) * f ∧
      (ZoomPanController.zoomAt t sx sy f).toScreen (t.toWorld ⟨sx, sy⟩) =
        ⟨sx, sy⟩) ∧
    ((t.scale * f < minZoom ∨ maxZoom < t.scale * f) →
      ZoomPanController.zoomAt t sx sy f = t) := by
  constructor
  · rintro ⟨hlo, hhi⟩
    have hcond : ¬(t.scale * f < minZoom ∨ maxZoom < t.scale * f) := by
      push_neg
      exact ⟨hlo, hhi⟩
    unfold ZoomPanController.zoomAt
    simp only [hcond, if_false]
    refine ⟨by trivial, by trivial, ?_⟩
    unfold Transform.toScreen Transform.toWorld
    simp only [ScreenPt.mk.injEq]
    constructor <;> · field_simp; ring
  · intro hcond
    unfold ZoomPanController.zoomAt
    simp only [hcond, if_true]

/-- Closed witness for the zoom anchor theorem at a concrete transform,
screen point and scale factor. -/
theorem zoomAt_anchor_preserving_witness :
    ((minZoom ≤ (2 : ℚ) * 3 ∧ (2 : ℚ) * 3 ≤ maxZoom) →
      (ZoomPanController.zoomAt ⟨5, 7, 2⟩ 11 13 3).x = 11 - (11 - 5) * 3 ∧
      (ZoomPanController.zoomAt ⟨5, 7, 2⟩ 11 13 3).y = 13 - (13 - 7) * 3 ∧
      (ZoomPanController.zoomAt ⟨5, 7, 2⟩ 11 13 3).toScreen
        (Transform.toWorld ⟨5, 7, 2⟩ ⟨11, 13⟩) = ⟨11, 13⟩) ∧
    (((2 : ℚ) * 3 < minZoom ∨ maxZoom < (2 : ℚ) * 3) →
      ZoomPanController.zoomAt ⟨5, 7, 2⟩ 11 13 3 = ⟨5, 7, 2⟩) :=
  zoomAt_anchor_preserving ⟨5, 7, 2⟩ 11 13 3 (by norm_num)

/-! ### Batched transformation (DataEngine._transformData, array case) -/

/-- Fuel-indexed body of the batching loop in DataEngine._transformData:
take one batch, map the transformer over it, recurse on the rest.  The fuel
is initialised to the array length, which bounds the number of loop
iterations whenever the batch size is positive. -/
def transformBatchedGo (transformer : α → β) (batchSize : Nat) :
    Nat → List α → List β
  | 0, _ => []
  | _, [] => []
  | Nat.succ fuel, data =>
      (data.take batchSize).map transformer ++
        transformBatchedGo transformer batchSize fuel (data.drop batchSize)

/-- Embedding of DataEngine._transformData for array data: arrays longer
than the configured batch size are processed in batches of that size,
shorter arrays in a single map. -/
def transformDataArr (batchSize : Nat) (transformer : α → β)
    (data : List α) : List β :=
  if batchSize < data.length then
    transformBatchedGo transformer batchSize data.length data
  else data.map transformer

/-- Written from the spec words for the refinement comparison: the
un-batched transform applies the transformer element-wise over the whole
array in one pass. -/
def transformElementwise (transformer : α → β) (data : List α) : List β :=
  data.map transformer

theorem transformBatchedGo_eq_map (transformer : α → β) (batchSize : Nat)
    (hbs : 1 ≤ batchSize) :
    ∀ (fuel : Nat) (data : List α), data.length ≤ fuel →
      transformBatchedGo transformer batchSize fuel data = data.map transformer := by
  intro fuel
  induction fuel with
  | zero =>
      intro data hlen
      rw [Nat.le_zero, List.length_eq_zero] at hlen
      subst hlen
      rfl
  | succ n ih =>
      intro data hlen
      cases data with
      | nil => rfl
      | cons a rest =>
          rw [transformBatchedGo, ih ((a :: rest).drop batchSize) ?_,
            ← List.map_append, List.take_append_drop]
          have h₁ : ((a :: rest).drop batchSize).length =
              (a :: rest).length - batchSize := List.length_drop ..
          have h₂ : (a :: rest).length = rest.length + 1 := List.length_cons ..
          simp only [h₁, h₂] at hlen ⊢
          omega
          simp

/-- C10: the batched transform path computes exactly the element-wise map,
in the same order; batching changes scheduling only, never the result.
The batch size is positive in every engine configuration (a zero or absent
configured value falls back to the default 10000). -/
theorem transform_batched_refines_elementwise (batchSize : Nat)
    (transformer : α → β) (data : List α) (hbs : 1 ≤ batchSize) :
    transformDataArr batchSize transformer data =
      transformElementwise transformer data := by
  unfold transformDataArr transformElementwise
  split
  · exact transformBatchedGo_eq_map transformer batchSize hbs data.length data le_rfl
  · rfl

/-- Closed witness for the batched-transform refinement at a concrete batch
size, transformer and array whose length exceeds the batch size. -/
theorem transform_batched_refines_elementwise_witness :
    transformDataArr 2 (fun n => n + 1) [10, 20, 30, 40, 50] =
      transformElementwise (fun n => n + 1) [10, 20, 30, 40, 50] :=
  transform_batched_refines_elementwise 2 (fun n => n + 1) [10, 20, 30, 40, 50]
    (by norm_num)

/-! ### Records, values and JS object semantics -/

/-- A JS value as far as the pipeline observes it. -/
inductive Value where
  | str (s : String)
  | num (n : Int)
  | boolean (b : Bool)
  | null
deriving DecidableEq, Repr

/-- A JS object: association list in property insertion order. -/
abbrev Record := List (String × Value)

/-- JS truthiness test (falsy values: empty string, zero, false, null). -/
def Value.falsy : Value → Bool
  | Value.str s => s == ""
  | Value.num n => n == 0
  | Value.boolean b => !b
  | Value.null => true

/-- JS property read. -/
def objGet (r : Record) (k : String) : Option Value :=
  match r.find? (fun kv => kv.1 == k) with
  | some kv => some kv.2
  | none => none

/-- JS property assignment: overwrite in place when the key exists, append
otherwise. -/
def objSet (r : Record) (k : String) (v : Value) : Record :=
  if r.any (fun kv => kv.1 == k) then
    r.map (fun kv => if kv.1 == k then (k, v) else kv)
  else r ++ [(k, v)]

/-- Two records are the same JS object: same keys mapped to same values,
irrespective of property insertion order. -/
def recordEquiv (r₁ r₂ : Record) : Prop :=
  (∀ kv ∈ r₁, objGet r₂ kv.1 = some kv.2) ∧
  (∀ kv ∈ r₂, objGet r₁ kv.1 = some kv.2)

instance (r₁ r₂ : Record) : Decidable (recordEquiv r₁ r₂) := by
  unfold recordEquiv
  infer_instance

/-- Data flowing through the engine: an array of records, a single object,
or plain text. -/
inductive Data where
  | arr (items : List Record)
  | obj (r : Record)
  | txt (s : String)
deriving DecidableEq, Repr

/-! ### JS string helpers used by the CSV parser

String.splitOn and friends do not reduce inside the kernel, so the JS
string primitives used by the source are implemented over the character
list of the string. -/

/-- JS whitespace test for String.prototype.trim. -/
def jsIsSpace (c : Char) : Bool :=
  c == ' ' || c == '\t' || c == '\n' || c == '\r'

def trimChars (l : List Char) : List Char :=
  ((l.dropWhile jsIsSpace).reverse.dropWhile jsIsSpace).reverse

/-- JS String.prototype.trim. -/
def jsTrim (s : String) : String := String.mk (trimChars s.data)

def splitCharGo (sep : Char) : List Char → List Char → List (List Char)
  | [], acc => [acc.reverse]
  | c :: rest, acc =>
      if c == sep then acc.reverse :: splitCharGo sep rest []
      else splitCharGo sep rest (c :: acc)

/-- JS String.prototype.split with a one-character separator. -/
def jsSplit (sep : Char) (s : String) : List String :=
  (splitCharGo sep s.data []).map String.mk

/-- JS s.replace with a global double-quote pattern and empty replacement:
removes every double quote. -/
def jsRemoveQuotes (s : String) : String :=
  String.mk (s.data.filter (fun c => !(c == '"')))

/-! ### CSV parsing and normalization (DataEngine._parseCSV, _normalizeData) -/

/-- Row construction inside DataEngine._parseCSV: assign each header the
field at the same position, empty string when the row is short. -/
def buildRow (headers values : List String) : Record :=
  headers.enum.foldl
    (fun row hv => objSet row hv.2 (Value.str (values.getD hv.1 ""))) []

/-- Embedding of DataEngine._parseCSV: split into lines, drop blank lines,
first remaining line is the header row, comma-split every data line,
trimming fields and stripping double quotes. -/
def parseCSV (csvText : String) : List Record :=
  let lines := (jsSplit '\n' csvText).filter (fun line => !(jsTrim line == ""))
  match lines with
  | [] => []
  | headerLine :: rest =>
    let headers := (jsSplit ',' headerLine).map (fun h => jsRemoveQuotes (jsTrim h))
    rest.map (fun line =>
      let values := (jsSplit ',' line).map (fun v => jsRemoveQuotes (jsTrim v))
      buildRow headers values)

/-- Embedding of the element normalization in DataEngine._normalizeData:
the object literal sets id to the element id when truthy, else to the
positional index, and then spreads the element, so an element that carries
an id property of any value keeps it. -/
def normalizeRecord (index : Nat) (item : Record) : Record :=
  let idInit : Value :=
    match objGet item "id" with
    | some v => if v.falsy then Value.num (Int.ofNat index) else v
    | none => Value.num (Int.ofNat index)
  item.foldl (fun row kv => objSet row kv.1 kv.2) [("id", idInit)]

/-- Embedding of DataEngine._normalizeData: arrays get stable per-element
ids, everything else passes through. -/
def normalizeData : Data → Data
  | Data.arr items => Data.arr (items.enum.map (fun ix => normalizeRecord ix.1 ix.2))
  | d => d

/-- C9: loading the CSV text x,y newline 1,2 newline 3,4 with default
options produces exactly two records, the same JS objects as
x:'1', y:'2', id:0 and x:'3', y:'4', id:1 — all field values kept as
strings and ids assigned from the positional index. -/
theorem csv_default_scenario :
    normalizeData (Data.arr (parseCSV "x,y\n1,2\n3,4")) =
      Data.arr
        [[("id", Value.num 0), ("x", Value.str "1"), ("y", Value.str "2")],
         [("id", Value.num 1), ("x", Value.str "3"), ("y", Value.str "4")]] ∧
    recordEquiv
      [("id", Value.num 0), ("x", Value.str "1"), ("y", Value.str "2")]
      [("x", Value.str "1"), ("y", Value.str "2"), ("id", Value.num 0)] ∧
    recordEquiv
      [("id", Value.num 1), ("x", Value.str "3"), ("y", Value.str "4")]
      [("x", Value.str "3"), ("y", Value.str "4"), ("id", Value.num 1)] := by
  refine ⟨by decide, by decide, by decide⟩

/-! ### Data engine state (DataEngine.js)

DataCache.js and DataValidator.js are imported by DataEngine.js but are not
part of the sources; the cache and the validator are therefore modelled
from the spec (bounded key-value store with TTL expiry and insertion-order
eviction; pluggable validate returning a validity flag with reasons). -/

/-- Data formats recognised by the load options. -/
inductive Fmt where
  | auto
  | json
  | csv
  | xml
  | text
deriving DecidableEq, Repr

/-- A data source accepted by loadData: URL string, array of records, or a
plain object. -/
inductive Source where
  | url (u : String)
  | arr (items : List Record)
  | obj (r : Record)
deriving DecidableEq, Repr

/-- Load options. The transform function is identified by a numeric id
(standing for the function source text the engine serialises into the
cache key); the environment maps ids to the actual functions. -/
structure Options where
  format : Option Fmt
  transform : Option Nat
  cache : Bool
  timeout : Option Nat
deriving DecidableEq, Repr

/-- Cache key built by DataEngine._generateCacheKey: source identity
combined with the format and the transform identity. -/
structure CacheKey where
  src : Source
  format : Option Fmt
  transform : Option Nat
deriving DecidableEq, Repr

def generateCacheKey (source : Source) (o : Options) : CacheKey :=
  ⟨source, o.format, o.transform⟩

/-- Package metadata (wall-clock load duration is outside the model). -/
structure Metadata where
  source : String
  format : Fmt
  loadedAt : Nat
  size : Nat
deriving DecidableEq, Repr

/-- Dataset statistics (the serialized-size memory estimate is outside the
model; no claim depends on it). -/
inductive Stats where
  | objStats (keys : Nat)
  | arrStats (length : Nat) (first last : Option Record)
deriving DecidableEq, Repr

structure DataPackage where
  data : Data
  metadata : Metadata
  statistics : Stats
deriving DecidableEq, Repr

/-- Modelled from the spec: a cache entry records its value and insertion
time; it expires when its age exceeds the TTL. -/
structure CacheEntry where
  value : DataPackage
  insertedAt : Nat
deriving DecidableEq, Repr

/-- TTL the engine configures on its cache (5 minutes in milliseconds). -/
def cacheTTL : Nat := 300000

/-- Modelled from the spec: the bounded cache, entries kept oldest first. -/
structure DataCache where
  entries : List (CacheKey × CacheEntry)
  maxSize : Nat
deriving DecidableEq, Repr

/-- Modelled from the spec: get returns the unexpired value under the key;
an expired entry under the key is treated as absent and removed. -/
def DataCache.get (c : DataCache) (k : CacheKey) (now : Nat) :
    Option DataPackage × DataCache :=
  match c.entries.find? (fun e => e.1 == k) with
  | none => (none, c)
  | some e =>
      if cacheTTL < now - e.2.insertedAt then
        (none, { c with entries := c.entries.filter (fun e2 => !(e2.1 == k)) })
      else (some e.2.value, c)

/-- Modelled from the spec: set replaces any entry under the key, appends
the new entry, and evicts least-recently-inserted entries first when the
entry count would exceed the maximum size. -/
def DataCache.set (c : DataCache) (k : CacheKey) (v : DataPackage) (now : Nat) :
    DataCache :=
  let es := (c.entries.filter (fun e => !(e.1 == k))) ++ [(k, ⟨v, now⟩)]
  { c with entries := es.drop (es.length - c.maxSize) }

/-- Modelled from the spec: result of the pluggable validate capability. -/
structure ValidationResult where
  valid : Bool
  errors : List String
deriving DecidableEq, Repr

/-- Load failures of the pipeline (the source raises plain Error values
whose messages carry the same information). -/
inductive LoadError where
  | unsupportedSource
  | validationError (reasons : List String)
  | timeoutError
  | httpError (status : Nat)
deriving DecidableEq, Repr

instance (α β : Type) [DecidableEq α] [DecidableEq β] :
    DecidableEq (Except α β) := fun a b =>
  match a, b with
  | Except.ok x, Except.ok y =>
      if h : x = y then Decidable.isTrue (by rw [h])
      else Decidable.isFalse (by simp [h])
  | Except.error x, Except.error y =>
      if h : x = y then Decidable.isTrue (by rw [h])
      else Decidable.isFalse (by simp [h])
  | Except.ok _, Except.error _ => Decidable.isFalse (by simp)
  | Except.error _, Except.ok _ => Decidable.isFalse (by simp)

/-- A network response as the engine observes it: how long the fetch took,
the HTTP status, the sniffed content type and the body under both parsed
and raw readings. -/
structure FetchResponse where
  duration : Nat
  status : Nat
  contentType : Option Fmt
  jsonBody : Data
  textBody : String
deriving Repr

/-- The engine's external environment: the network, the pluggable
validator, and the table giving meaning to transform ids (element-wise
reading for arrays, whole-value reading otherwise — two facets of the one
untyped JS function). -/
structure Env where
  fetch : String → FetchResponse
  validate : Data → ValidationResult
  transformRec : Nat → Record → Record
  transformWhole : Nat → Data → Data

/-- Engine configuration after the constructor applied its defaults. -/
structure Config where
  maxCacheSize : Nat
  batchSize : Nat
  validateData : Bool
  timeout : Nat
deriving DecidableEq, Repr

structure Metrics where
  totalLoaded : Nat
  cacheHits : Nat
  cacheMisses : Nat
deriving DecidableEq, Repr

structure EngineState where
  cache : DataCache
  loadedDatasets : List (CacheKey × DataPackage)
  metrics : Metrics
deriving DecidableEq, Repr

/-- Outcome of one loadData call: the returned value or error, the engine
state afterwards, and how many transformer invocations and network fetches
the call performed. -/
structure LoadOutcome where
  result : Except LoadError DataPackage
  state : EngineState
  transformRuns : Nat
  fetchRuns : Nat

/-- JS response.ok: status in the 2xx range. -/
def statusOk (s : Nat) : Bool := decide (200 ≤ s ∧ s ≤ 299)

/-- Effective request timeout: per-call option when truthy, else the
configured engine timeout. -/
def effectiveTimeout (cfg : Config) (o : Options) : Nat :=
  match o.timeout with
  | some t => if t = 0 then cfg.timeout else t
  | none => cfg.timeout

/-- Embedding of DataEngine._loadFromUrl: abort past the timeout, reject
non-2xx statuses, then parse the body according to the requested or
sniffed format (the switch default parses JSON). -/
def loadFromUrl (env : Env) (cfg : Config) (u : String) (o : Options) :
    Except LoadError Data :=
  let r := env.fetch u
  if effectiveTimeout cfg o < r.duration then Except.error LoadError.timeoutError
  else if !(statusOk r.status) then Except.error (LoadError.httpError r.status)
  else
    match o.format with
    | none => (match r.contentType with
        | some Fmt.json => Except.ok r.jsonBody
        | some Fmt.csv => Except.ok (Data.arr (parseCSV r.textBody))
        | _ => Except.ok (Data.txt r.textBody))
    | some Fmt.auto => (match r.contentType with
        | some Fmt.json => Except.ok r.jsonBody
        | some Fmt.csv => Except.ok (Data.arr (parseCSV r.textBody))
        | _ => Except.ok (Data.txt r.textBody))
    | some Fmt.json => Except.ok r.jsonBody
    | some Fmt.csv => Except.ok (Data.arr (parseCSV r.textBody))
    | some Fmt.text => Except.ok (Data.txt r.textBody)
    | some Fmt.xml => Except.ok r.jsonBody

/-- Raw-data acquisition step of loadData together with the number of
network fetches it performed. -/
def acquireData (env : Env) (cfg : Config) (source : Source) (o : Options) :
    Except LoadError Data × Nat :=
  match source with
  | Source.url u => (loadFromUrl env cfg u o, 1)
  | Source.arr items => (Except.ok (Data.arr items), 0)
  | Source.obj r => (Except.ok (Data.obj r), 0)

/-- Transformation step of loadData (DataEngine._transformData) together
with the number of transformer invocations. -/
def transformStep (env : Env) (cfg : Config) (o : Options) (rawData : Data) :
    Data × Nat :=
  match o.transform with
  | none => (rawData, 0)
  | some tid =>
      match rawData with
      | Data.arr items =>
          (Data.arr (transformDataArr cfg.batchSize (env.transformRec tid) items),
            items.length)
      | d => (env.transformWhole tid d, 1)

/-- Size recorded in the package metadata: array length, object key count,
character count for text (JS Object.keys on a string yields its indices). -/
def dataSize : Data → Nat
  | Data.arr items => items.length
  | Data.obj r => r.length
  | Data.txt s => s.data.length

/-- Embedding of DataEngine._calculateStatistics. -/
def calcStats : Data → Stats
  | Data.arr items => Stats.arrStats items.length items.head? items.getLast?
  | Data.obj r => Stats.objStats r.length
  | Data.txt s => Stats.objStats s.data.length

/-- JS Map.prototype.set on the active-dataset registry. -/
def datasetsSet (ds : List (CacheKey × DataPackage)) (k : CacheKey)
    (v : DataPackage) : List (CacheKey × DataPackage) :=
  (ds.filter (fun e => !(e.1 == k))) ++ [(k, v)]

/-- Cache-miss continuation of loadData: acquire, validate, transform,
normalize, package, cache and record the result. -/
def loadDataMiss (env : Env) (cfg : Config) (st : EngineState)
    (source : Source) (o : Options) (now : Nat) (key : CacheKey) : LoadOutcome :=
  let acquired := acquireData env cfg source o
  match acquired.1 with
  | Except.error e =>
      { result := Except.error e, state := st, transformRuns := 0,
        fetchRuns := acquired.2 }
  | Except.ok rawData =>
      if cfg.validateData && !(env.validate rawData).valid then
        { result := Except.error (LoadError.validationError (env.validate rawData).errors),
          state := st, transformRuns := 0, fetchRuns := acquired.2 }
      else
        let tr := transformStep env cfg o rawData
        let normalizedData := normalizeData tr.1
        let dataPackage : DataPackage :=
          { data := normalizedData,
            metadata :=
              { source := match source with
                  | Source.url u => u
                  | _ => "object",
                format := match o.format with
                  | some f => f
                  | none => Fmt.auto,
                loadedAt := now,
                size := dataSize normalizedData },
            statistics := calcStats normalizedData }
        let st₁ :=
          if o.cache then { st with cache := st.cache.set key dataPackage now }
          else st
        { result := Except.ok dataPackage,
          state :=
            { st₁ with
              loadedDatasets := datasetsSet st₁.loadedDatasets key dataPackage,
              metrics := { st₁.metrics with
                totalLoaded := st₁.metrics.totalLoaded + 1 } },
          transformRuns := tr.2, fetchRuns := acquired.2 }

/-- Embedding of DataEngine.loadData at one instant of time: check the
cache first (counting a hit or a miss) unless caching is disabled, then
run the miss pipeline. -/
def loadData (env : Env) (cfg : Config) (st : EngineState) (source : Source)
    (o : Options) (now : Nat) : LoadOutcome :=
  let cacheKey := generateCacheKey source o
  if o.cache then
    match DataCache.get st.cache cacheKey now with
    | (some cachedData, cNext) =>
        { result := Except.ok cachedData,
          state :=
            { st with
              cache := cNext,
              metrics := { st.metrics with cacheHits := st.metrics.cacheHits + 1 } },
          transformRuns := 0, fetchRuns := 0 }
    | (none, cNext) =>
        loadDataMiss env cfg
          { st with
            cache := cNext,
            metrics := { st.metrics with cacheMisses := st.metrics.cacheMisses + 1 } }
          source o now cacheKey
  else loadDataMiss env cfg st source o now cacheKey

/-! ### Cache lemmas -/

theorem DataCache.get_hit_cache_unchanged (c : DataCache) (k : CacheKey)
    (now : Nat) (v : DataPackage) (h : (c.get k now).1 = some v) :
    (c.get k now).2 = c := by
  unfold DataCache.get at h ⊢
  cases hf : c.entries.find? (fun e => e.1 == k) with
  | none => simp [hf] at h
  | some e =>
      rw [hf] at h
      dsimp only at h ⊢
      by_cases hexp : cacheTTL < now - e.2.insertedAt
      · rw [if_pos hexp] at h; simp at h
      · rw [if_neg hexp]

theorem DataCache.get_maxSize (c : DataCache) (k : CacheKey) (now : Nat) :
    (c.get k now).2.maxSize = c.maxSize := by
  unfold DataCache.get
  cases hf : c.entries.find? (fun e => e.1 == k) with
  | none => rfl
  | some e =>
      dsimp only
      by_cases hexp : cacheTTL < now - e.2.insertedAt
      · rw [if_pos hexp]
      · rw [if_neg hexp]

theorem DataCache.get_cache_cases (c : DataCache) (k : CacheKey) (now : Nat) :
    (c.get k now).2 = c ∨
      (c.get k now).2 =
        { c with entries := c.entries.filter (fun e2 => !(e2.1 == k)) } := by
  unfold DataCache.get
  cases hf : c.entries.find? (fun e => e.1 == k) with
  | none => exact Or.inl rfl
  | some e =>
      dsimp only
      by_cases hexp : cacheTTL < now - e.2.insertedAt
      · rw [if_pos hexp]; exact Or.inr rfl
      · rw [if_neg hexp]; exact Or.inl rfl

theorem DataCache.set_maxSize (c : DataCache) (k : CacheKey) (v : DataPackage)
    (now : Nat) : (c.set k v now).maxSize = c.maxSize := rfl

theorem DataCache.set_entries (c : DataCache) (k : CacheKey) (v : DataPackage)
    (now : Nat) : (c.set k v now).entries =
      ((c.entries.filter (fun e => !(e.1 == k))) ++
        [(k, (⟨v, now⟩ : CacheEntry))]).drop
        (((c.entries.filter (fun e => !(e.1 == k))) ++
          [(k, (⟨v, now⟩ : CacheEntry))]).length - c.maxSize) := rfl

theorem DataCache.get_set_same (c : DataCache) (k : CacheKey) (v : DataPackage)
    (now : Nat) (hmax : 1 ≤ c.maxSize) :
    ((c.set k v now).get k now).1 = some v := by
  have hfind : (c.set k v now).entries.find? (fun e => e.1 == k) =
      some (k, (⟨v, now⟩ : CacheEntry)) := by
    rw [DataCache.set_entries]
    have hd : ((c.entries.filter (fun e => !(e.1 == k))) ++
        [(k, (⟨v, now⟩ : CacheEntry))]).length - c.maxSize ≤
        (c.entries.filter (fun e => !(e.1 == k))).length := by
      rw [List.length_append, List.length_singleton]
      omega
    rw [List.drop_append_of_le_length hd, List.find?_append]
    have hnone : ((c.entries.filter (fun e => !(e.1 == k))).drop
        (((c.entries.filter (fun e => !(e.1 == k))) ++
          [(k, (⟨v, now⟩ : CacheEntry))]).length - c.maxSize)).find?
        (fun e => e.1 == k) = none := by
      rw [List.find?_eq_none]
      intro x hx
      have hxf : x ∈ c.entries.filter (fun e => !(e.1 == k)) :=
        List.drop_subset _ _ hx
      have := (List.mem_filter.mp hxf).2
      simp only [Bool.not_eq_true'] at this
      simp [this]
    rw [hnone]
    simp
  unfold DataCache.get
  rw [hfind]
  dsimp only
  have hfresh : ¬ (cacheTTL < now - now) := by omega
  rw [if_neg hfresh]

/-! ### Load pipeline lemmas -/

theorem loadDataMiss_result_state_indep (env : Env) (cfg : Config)
    (st₁ st₂ : EngineState) (source : Source) (o : Options) (now : Nat)
    (key : CacheKey) :
    (loadDataMiss env cfg st₁ source o now key).result =
      (loadDataMiss env cfg st₂ source o now key).result := by
  unfold loadDataMiss
  dsimp only
  cases hA : (acquireData env cfg source o).1 with
  | error e => dsimp only
  | ok raw =>
      dsimp only
      by_cases hv : (cfg.validateData && !(env.validate raw).valid) = true
      · simp only [if_pos hv]
      · simp only [if_neg hv]

theorem loadDataMiss_error_state (env : Env) (cfg : Config) (st : EngineState)
    (source : Source) (o : Options) (now : Nat) (key : CacheKey)
    (e : LoadError)
    (h : (loadDataMiss env cfg st source o now key).result = Except.error e) :
    (loadDataMiss env cfg st source o now key).state = st := by
  unfold loadDataMiss at h ⊢
  dsimp only at h ⊢
  cases hA : (acquireData env cfg source o).1 with
  | error e2 => rw [hA] at h
  | ok raw =>
      rw [hA] at h
      dsimp only at h ⊢
      by_cases hv : (cfg.validateData && !(env.validate raw).valid) = true
      · rw [if_pos hv]
      · rw [if_neg hv] at h
        dsimp only at h
        exact absurd h (by simp)

theorem loadDataMiss_ok_state (env : Env) (cfg : Config) (st : EngineState)
    (source : Source) (o : Options) (now : Nat) (key : CacheKey)
    (pkg : DataPackage) (hc : o.cache = true)
    (h : (loadDataMiss env cfg st source o now key).result = Except.ok pkg) :
    (loadDataMiss env cfg st source o now key).state.cache =
      st.cache.set key pkg now := by
  unfold loadDataMiss at h ⊢
  dsimp only at h ⊢
  cases hA : (acquireData env cfg source o).1 with
  | error e => rw [hA] at h; dsimp only at h; exact absurd h (by simp)
  | ok raw =>
      rw [hA] at h
      dsimp only at h ⊢
      by_cases hv : (cfg.validateData && !(env.validate raw).valid) = true
      · rw [if_pos hv] at h; dsimp only at h; exact absurd h (by simp)
      · rw [if_neg hv] at h ⊢
        dsimp only at h ⊢
        rw [if_pos hc]
        simp only [Except.ok.injEq] at h
        rw [h]

theorem loadDataMiss_cacheHits (env : Env) (cfg : Config) (st : EngineState)
    (source : Source) (o : Options) (now : Nat) (key : CacheKey) :
    (loadDataMiss env cfg st source o now key).state.metrics.cacheHits =
      st.metrics.cacheHits := by
  unfold loadDataMiss
  dsimp only
  cases hA : (acquireData env cfg source o).1 with
  | error e => dsimp only
  | ok raw =>
      dsimp only
      by_cases hv : (cfg.validateData && !(env.validate raw).valid) = true
      · rw [if_pos hv]
      · rw [if_neg hv]
        dsimp only
        by_cases hc : o.cache = true
        · rw [if_pos hc]
        · rw [if_neg hc]

theorem loadData_hit (env : Env) (cfg : Config) (st : EngineState)
    (source : Source) (o : Options) (now : Nat) (v : DataPackage)
    (cN : DataCache) (hcache : o.cache = true)
    (hG : DataCache.get st.cache (generateCacheKey source o) now = (some v, cN)) :
    loadData env cfg st source o now =
      { result := Except.ok v,
        state :=
          { st with
            cache := cN,
            metrics := { st.metrics with cacheHits := st.metrics.cacheHits + 1 } },
        transformRuns := 0, fetchRuns := 0 } := by
  unfold loadData
  dsimp only
  rw [if_pos hcache, hG]

theorem loadData_miss_case (env : Env) (cfg : Config) (st : EngineState)
    (source : Source) (o : Options) (now : Nat) (cN : DataCache)
    (hcache : o.cache = true)
    (hG : DataCache.get st.cache (generateCacheKey source o) now = (none, cN)) :
    loadData env cfg st source o now =
      loadDataMiss env cfg
        { st with
          cache := cN,
          metrics := { st.metrics with cacheMisses := st.metrics.cacheMisses + 1 } }
        source o now (generateCacheKey source o) := by
  unfold loadData
  dsimp only
  rw [if_pos hcache, hG]

theorem loadData_nocache (env : Env) (cfg : Config) (st : EngineState)
    (source : Source) (o : Options) (now : Nat) (hcache : o.cache = false) :
    loadData env cfg st source o now =
      loadDataMiss env cfg st source o now (generateCacheKey source o) := by
  unfold loadData
  dsimp only
  rw [if_neg (by rw [hcache]; exact Bool.false_ne_true)]

/-- C2: with caching enabled, a second sequential load of the same source
and options returns the very package the first call produced, is served
from the cache (one cacheHits increment), and performs no transformer
invocation and no network fetch. -/
theorem load_idempotent_cached (env : Env) (cfg : Config) (st : EngineState)
    (source : Source) (o : Options) (now : Nat) (pkg : DataPackage)
    (hmax : 1 ≤ st.cache.maxSize) (hcache : o.cache = true)
    (h1 : (loadData env cfg st source o now).result = Except.ok pkg) :
    (loadData env cfg (loadData env cfg st source o now).state source o now).result =
      Except.ok pkg ∧
    (loadData env cfg (loadData env cfg st source o now).state source o
        now).state.metrics.cacheHits =
      (loadData env cfg st source o now).state.metrics.cacheHits + 1 ∧
    (loadData env cfg (loadData env cfg st source o now).state source o
        now).transformRuns = 0 ∧
    (loadData env cfg (loadData env cfg st source o now).state source o
        now).fetchRuns = 0 := by
  rcases hP : DataCache.get st.cache (generateCacheKey source o) now with ⟨g1, g2⟩
  cases g1 with
  | some v =>
      have hg2 : g2 = st.cache := by
        have h := DataCache.get_hit_cache_unchanged st.cache
          (generateCacheKey source o) now v (by rw [hP])
        rw [hP] at h
        exact h
      have hfirst := loadData_hit env cfg st source o now v g2 hcache hP
      rw [hfirst] at h1
      dsimp only at h1
      rw [Except.ok.injEq] at h1
      have hsecond := loadData_hit env cfg
        (loadData env cfg st source o now).state source o now v g2 hcache
        (by rw [hfirst]; dsimp only; rw [hg2, hP, hg2])
      rw [hsecond, hfirst]
      exact ⟨by rw [h1], rfl, rfl, rfl⟩
  | none =>
      have hfirst := loadData_miss_case env cfg st source o now g2 hcache hP
      rw [hfirst] at h1
      have hstcache := loadDataMiss_ok_state env cfg
        { st with
          cache := g2,
          metrics := { st.metrics with cacheMisses := st.metrics.cacheMisses + 1 } }
        source o now (generateCacheKey source o) pkg hcache h1
      have hmax2 : 1 ≤ g2.maxSize := by
        have h := DataCache.get_maxSize st.cache (generateCacheKey source o) now
        rw [hP] at h
        dsimp only at h
        omega
      have hget2 : DataCache.get
          (loadData env cfg st source o now).state.cache
          (generateCacheKey source o) now =
          (some pkg, (loadData env cfg st source o now).state.cache) := by
        rw [hfirst, hstcache]
        have hfst := DataCache.get_set_same g2 (generateCacheKey source o) pkg now hmax2
        have hsnd := DataCache.get_hit_cache_unchanged
          (DataCache.set g2 (generateCacheKey source o) pkg now)
          (generateCacheKey source o) now pkg hfst
        rcases hQ : DataCache.get (DataCache.set g2 (generateCacheKey source o) pkg now)
          (generateCacheKey source o) now with ⟨q1, q2⟩
        rw [hQ] at hfst hsnd
        dsimp only at hfst hsnd
        rw [hfst, hsnd]
      have hsecond := loadData_hit env cfg
        (loadData env cfg st source o now).state source o now pkg
        (loadData env cfg st source o now).state.cache hcache hget2
      rw [hsecond]
      exact ⟨rfl, rfl, rfl, rfl⟩

/-- Environment for the idempotent-load witness: validator accepts
everything, transforms are identities. -/
def c2wEnv : Env :=
  ⟨fun _ => ⟨0, 200, none, Data.txt "", ""⟩,
   fun _ => ⟨true, []⟩,
   fun _ => fun r => r,
   fun _ => fun d => d⟩

/-- Fresh engine state for the idempotent-load witness. -/
def c2wState : EngineState := ⟨⟨[], 100000⟩, [], ⟨0, 0, 0⟩⟩

/-- The package the witness load produces. -/
def c2wPkg : DataPackage :=
  ⟨Data.arr [[("id", Value.num 0), ("a", Value.num 5)]],
   ⟨"object", Fmt.auto, 0, 1⟩,
   Stats.arrStats 1 (some [("id", Value.num 0), ("a", Value.num 5)])
     (some [("id", Value.num 0), ("a", Value.num 5)])⟩

/-- Closed witness for the idempotent cached load at a concrete engine,
source and options. -/
theorem load_idempotent_cached_witness :
    (loadData c2wEnv ⟨100000, 10000, true, 30000⟩
      (loadData c2wEnv ⟨100000, 10000, true, 30000⟩ c2wState
        (Source.arr [[("a", Value.num 5)]]) ⟨none, none, true, none⟩ 0).state
      (Source.arr [[("a", Value.num 5)]]) ⟨none, none, true, none⟩ 0).result =
      Except.ok c2wPkg ∧
    (loadData c2wEnv ⟨100000, 10000, true, 30000⟩
      (loadData c2wEnv ⟨100000, 10000, true, 30000⟩ c2wState
        (Source.arr [[("a", Value.num 5)]]) ⟨none, none, true, none⟩ 0).state
      (Source.arr [[("a", Value.num 5)]]) ⟨none, none, true, none⟩
        0).state.metrics.cacheHits =
      (loadData c2wEnv ⟨100000, 10000, true, 30000⟩ c2wState
        (Source.arr [[("a", Value.num 5)]]) ⟨none, none, true, none⟩
        0).state.metrics.cacheHits + 1 ∧
    (loadData c2wEnv ⟨100000, 10000, true, 30000⟩
      (loadData c2wEnv ⟨100000, 10000, true, 30000⟩ c2wState
        (Source.arr [[("a", Value.num 5)]]) ⟨none, none, true, none⟩ 0).state
      (Source.arr [[("a", Value.num 5)]]) ⟨none, none, true, none⟩
        0).transformRuns = 0 ∧
    (loadData c2wEnv ⟨100000, 10000, true, 30000⟩
      (loadData c2wEnv ⟨100000, 10000, true, 30000⟩ c2wState
        (Source.arr [[("a", Value.num 5)]]) ⟨none, none, true, none⟩ 0).state
      (Source.arr [[("a", Value.num 5)]]) ⟨none, none, true, none⟩
        0).fetchRuns = 0 :=
  load_idempotent_cached c2wEnv ⟨100000, 10000, true, 30000⟩ c2wState
    (Source.arr [[("a", Value.num 5)]]) ⟨none, none, true, none⟩ 0 c2wPkg
    (by decide) rfl (by decide)

/-! ### Validation failure behaviour (C3) -/

theorem loadDataMiss_validation_failure (env : Env) (cfg : Config)
    (st : EngineState) (source : Source) (o : Options) (now : Nat)
    (key : CacheKey) (raw : Data) (fr : Nat)
    (hval : cfg.validateData = true)
    (hacq : acquireData env cfg source o = (Except.ok raw, fr))
    (hinvalid : (env.validate raw).valid = false) :
    loadDataMiss env cfg st source o now key =
      { result := Except.error (LoadError.validationError (env.validate raw).errors),
        state := st, transformRuns := 0, fetchRuns := fr } := by
  unfold loadDataMiss
  dsimp only
  have h1 : (acquireData env cfg source o).1 = Except.ok raw := by rw [hacq]
  have h2 : (acquireData env cfg source o).2 = fr := by rw [hacq]
  rw [h1, h2]
  dsimp only
  have hB : (cfg.validateData && !(env.validate raw).valid) = true := by
    rw [hval, hinvalid]
    rfl
  rw [if_pos hB]

/-- C3 (amended): a validation-rejected load aborts with the validation
error, returns nothing, leaves loadedDatasets and totalLoaded unchanged and
writes nothing to the cache: the cache is either untouched or differs only
by the removal (during the lookup phase) of the expired entry under the
load's own cache key. -/
theorem load_validation_failure_aborts (env : Env) (cfg : Config)
    (st : EngineState) (source : Source) (o : Options) (now : Nat)
    (raw : Data) (fr : Nat)
    (hval : cfg.validateData = true)
    (hmiss : o.cache = false ∨
      (DataCache.get st.cache (generateCacheKey source o) now).1 = none)
    (hacq : acquireData env cfg source o = (Except.ok raw, fr))
    (hinvalid : (env.validate raw).valid = false) :
    (loadData env cfg st source o now).result =
      Except.error (LoadError.validationError (env.validate raw).errors) ∧
    (loadData env cfg st source o now).state.loadedDatasets =
      st.loadedDatasets ∧
    (loadData env cfg st source o now).state.metrics.totalLoaded =
      st.metrics.totalLoaded ∧
    ((loadData env cfg st source o now).state.cache = st.cache ∨
      (loadData env cfg st source o now).state.cache =
        { st.cache with
          entries := st.cache.entries.filter (fun e2 => !(e2.1 == generateCacheKey source o)) }) := by
  by_cases hc : o.cache = true
  · rcases hmiss with hc2 | hget
    · rw [hc] at hc2
      exact absurd hc2 (by simp)
    · rcases hP : DataCache.get st.cache (generateCacheKey source o) now with ⟨q1, q2⟩
      rw [hP] at hget
      dsimp only at hget
      subst hget
      rw [loadData_miss_case env cfg st source o now q2 hc hP,
        loadDataMiss_validation_failure env cfg _ source o now _ raw fr hval hacq hinvalid]
      refine ⟨rfl, rfl, rfl, ?_⟩
      have hcases := DataCache.get_cache_cases st.cache (generateCacheKey source o) now
      rw [hP] at hcases
      dsimp only at hcases
      exact hcases
  · have hc2 : o.cache = false := by revert hc; cases o.cache <;> simp
    rw [loadData_nocache env cfg st source o now hc2,
      loadDataMiss_validation_failure env cfg st source o now _ raw fr hval hacq hinvalid]
    exact ⟨rfl, rfl, rfl, Or.inl rfl⟩

/-- Environment for the validation-failure counterexample and witness: the
validator rejects everything. -/
def c3Env : Env :=
  ⟨fun _ => ⟨0, 200, none, Data.txt "", ""⟩,
   fun _ => ⟨false, ["invalid"]⟩,
   fun _ => fun r => r,
   fun _ => fun d => d⟩

/-- Cache key of the counterexample load. -/
def c3Key : CacheKey := ⟨Source.obj [], none, none⟩

/-- A stale package sitting in the cache before the counterexample load. -/
def c3Pkg : DataPackage :=
  ⟨Data.txt "", ⟨"object", Fmt.auto, 0, 0⟩, Stats.objStats 0⟩

/-- Engine state holding an expired cache entry under the load's key. -/
def c3State : EngineState := ⟨⟨[(c3Key, ⟨c3Pkg, 0⟩)], 100000⟩, [], ⟨0, 0, 0⟩⟩

/-- C3 counterexample: at time 300001 the entry inserted at time 0 is
expired; the validation-rejected load aborts with the validation error,
yet the cache contents change — the lookup phase removed the expired entry
— contradicting the claim that the cache is unchanged by the failed load. -/
theorem load_validation_failure_cache_changed :
    (loadData c3Env ⟨100000, 10000, true, 30000⟩ c3State (Source.obj [])
      ⟨none, none, true, none⟩ 300001).result =
      Except.error (LoadError.validationError ["invalid"]) ∧
    ¬ (loadData c3Env ⟨100000, 10000, true, 30000⟩ c3State (Source.obj [])
      ⟨none, none, true, none⟩ 300001).state.cache = c3State.cache :=
  ⟨by decide, by decide⟩

/-- Closed witness for the amended validation-failure theorem at a concrete
engine whose cache is empty. -/
theorem load_validation_failure_aborts_witness :
    (loadData c3Env ⟨100000, 10000, true, 30000⟩ ⟨⟨[], 100000⟩, [], ⟨0, 0, 0⟩⟩
      (Source.obj []) ⟨none, none, true, none⟩ 0).result =
      Except.error (LoadError.validationError ["invalid"]) ∧
    (loadData c3Env ⟨100000, 10000, true, 30000⟩ ⟨⟨[], 100000⟩, [], ⟨0, 0, 0⟩⟩
      (Source.obj []) ⟨none, none, true, none⟩ 0).state.loadedDatasets = [] ∧
    (loadData c3Env ⟨100000, 10000, true, 30000⟩ ⟨⟨[], 100000⟩, [], ⟨0, 0, 0⟩⟩
      (Source.obj []) ⟨none, none, true, none⟩ 0).state.metrics.totalLoaded = 0 ∧
    ((loadData c3Env ⟨100000, 10000, true, 30000⟩ ⟨⟨[], 100000⟩, [], ⟨0, 0, 0⟩⟩
      (Source.obj []) ⟨none, none, true, none⟩ 0).state.cache =
        (⟨⟨[], 100000⟩, [], ⟨0, 0, 0⟩⟩ : EngineState).cache ∨
      (loadData c3Env ⟨100000, 10000, true, 30000⟩ ⟨⟨[], 100000⟩, [], ⟨0, 0, 0⟩⟩
        (Source.obj []) ⟨none, none, true, none⟩ 0).state.cache =
        { (⟨⟨[], 100000⟩, [], ⟨0, 0, 0⟩⟩ : EngineState).cache with
          entries := (⟨⟨[], 100000⟩, [], ⟨0, 0, 0⟩⟩ : EngineState).cache.entries.filter (fun e2 => !(e2.1 == generateCacheKey (Source.obj []) ⟨none, none, true, none⟩)) }) :=
  load_validation_failure_aborts c3Env ⟨100000, 10000, true, 30000⟩
    ⟨⟨[], 100000⟩, [], ⟨0, 0, 0⟩⟩ (Source.obj []) ⟨none, none, true, none⟩ 0
    (Data.obj []) 0 rfl (Or.inr (by decide)) (by decide) (by decide)

/-! ### URL load errors (C8) -/

theorem loadFromUrl_timeout (env : Env) (cfg : Config) (u : String)
    (o : Options) (h : effectiveTimeout cfg o < (env.fetch u).duration) :
    loadFromUrl env cfg u o = Except.error LoadError.timeoutError := by
  unfold loadFromUrl
  dsimp only
  rw [if_pos h]

theorem loadFromUrl_http (env : Env) (cfg : Config) (u : String) (o : Options)
    (hd : ¬ effectiveTimeout cfg o < (env.fetch u).duration)
    (hs : statusOk (env.fetch u).status = false) :
    loadFromUrl env cfg u o =
      Except.error (LoadError.httpError (env.fetch u).status) := by
  unfold loadFromUrl
  dsimp only
  rw [if_neg hd, if_pos (by rw [hs]; rfl)]

theorem loadDataMiss_acquire_error (env : Env) (cfg : Config)
    (st : EngineState) (source : Source) (o : Options) (now : Nat)
    (key : CacheKey) (e : LoadError)
    (h : (acquireData env cfg source o).1 = Except.error e) :
    (loadDataMiss env cfg st source o now key).result = Except.error e := by
  unfold loadDataMiss
  dsimp only
  rw [h]

theorem loadData_result_miss (env : Env) (cfg : Config) (st : EngineState)
    (source : Source) (o : Options) (now : Nat)
    (hmiss : o.cache = false ∨
      (DataCache.get st.cache (generateCacheKey source o) now).1 = none) :
    (loadData env cfg st source o now).result =
      (loadDataMiss env cfg st source o now (generateCacheKey source o)).result := by
  by_cases hc : o.cache = true
  · rcases hmiss with hc2 | hget
    · rw [hc] at hc2
      exact absurd hc2 (by simp)
    · rcases hP : DataCache.get st.cache (generateCacheKey source o) now with ⟨q1, q2⟩
      rw [hP] at hget
      dsimp only at hget
      subst hget
      rw [loadData_miss_case env cfg st source o now q2 hc hP]
      exact loadDataMiss_result_state_indep env cfg _ st source o now _
  · have hc2 : o.cache = false := by revert hc; cases o.cache <;> simp
    rw [loadData_nocache env cfg st source o now hc2]

/-- C8: a URL load whose fetch exceeds the configured timeout fails with
the timeout error; one whose response carries a non-2xx status fails with
the HTTP error carrying that status. -/
theorem load_url_timeout_and_http_errors (env : Env) (cfg : Config)
    (st : EngineState) (u : String) (o : Options) (now : Nat)
    (hmiss : o.cache = false ∨
      (DataCache.get st.cache (generateCacheKey (Source.url u) o) now).1 = none) :
    (effectiveTimeout cfg o < (env.fetch u).duration →
      (loadData env cfg st (Source.url u) o now).result =
        Except.error LoadError.timeoutError) ∧
    ((env.fetch u).duration ≤ effectiveTimeout cfg o →
      statusOk (env.fetch u).status = false →
      (loadData env cfg st (Source.url u) o now).result =
        Except.error (LoadError.httpError (env.fetch u).status)) := by
  have hres := loadData_result_miss env cfg st (Source.url u) o now hmiss
  constructor
  · intro hdur
    rw [hres]
    refine loadDataMiss_acquire_error env cfg st (Source.url u) o now _ _ ?_
    show loadFromUrl env cfg u o = Except.error LoadError.timeoutError
    exact loadFromUrl_timeout env cfg u o hdur
  · intro hdur hstat
    rw [hres]
    refine loadDataMiss_acquire_error env cfg st (Source.url u) o now _ _ ?_
    show loadFromUrl env cfg u o =
      Except.error (LoadError.httpError (env.fetch u).status)
    exact loadFromUrl_http env cfg u o (by omega) hstat

/-- Environment for the URL-error witness: the single URL fetch takes
50000 ms (past the default 30000 ms timeout) and reports status 503. -/
def c8Env : Env :=
  ⟨fun _ => ⟨50000, 503, none, Data.txt "", ""⟩,
   fun _ => ⟨true, []⟩,
   fun _ => fun r => r,
   fun _ => fun d => d⟩

/-- Closed witness for the URL error theorem at a concrete environment with
caching disabled. -/
theorem load_url_timeout_and_http_errors_witness :
    (effectiveTimeout ⟨100000, 10000, true, 30000⟩ ⟨none, none, false, none⟩ <
        (c8Env.fetch "http://x").duration →
      (loadData c8Env ⟨100000, 10000, true, 30000⟩ ⟨⟨[], 100000⟩, [], ⟨0, 0, 0⟩⟩
        (Source.url "http://x") ⟨none, none, false, none⟩ 0).result =
        Except.error LoadError.timeoutError) ∧
    ((c8Env.fetch "http://x").duration ≤
        effectiveTimeout ⟨100000, 10000, true, 30000⟩ ⟨none, none, false, none⟩ →
      statusOk (c8Env.fetch "http://x").status = false →
      (loadData c8Env ⟨100000, 10000, true, 30000⟩ ⟨⟨[], 100000⟩, [], ⟨0, 0, 0⟩⟩
        (Source.url "http://x") ⟨none, none, false, none⟩ 0).result =
        Except.error (LoadError.httpError (c8Env.fetch "http://x").status)) :=
  load_url_timeout_and_http_errors c8Env ⟨100000, 10000, true, 30000⟩
    ⟨⟨[], 100000⟩, [], ⟨0, 0, 0⟩⟩ "http://x" ⟨none, none, false, none⟩ 0
    (Or.inl rfl)

/-! ### Spatial index (QuadTree)

The sources define QuadTree.insert and QuadTree.query; the helpers they
call (contains, intersects, subdivide) are referenced but absent, and are
modelled from the spec.  Insertion is indexed by recursion fuel standing
for the JS call stack (the source recursion has no depth guard). -/

structure AABB where
  minX : ℚ
  maxX : ℚ
  minY : ℚ
  maxY : ℚ
deriving DecidableEq, Repr

/-- Spec invariant of an axis-aligned box. -/
def AABB.valid (b : AABB) : Prop := b.minX ≤ b.maxX ∧ b.minY ≤ b.maxY

instance (b : AABB) : Decidable b.valid := by
  unfold AABB.valid
  infer_instance

structure QPoint where
  x : ℚ
  y : ℚ
deriving DecidableEq, Repr

/-- Modelled from the spec: the contains helper is referenced but absent
from the sources; point containment is inclusive on the lower bounds and
exclusive on the upper bounds (the spec's single consistent side choice). -/
def AABB.containsP (b : AABB) (p : QPoint) : Prop :=
  b.minX ≤ p.x ∧ p.x < b.maxX ∧ b.minY ≤ p.y ∧ p.y < b.maxY

instance (b : AABB) (p : QPoint) : Decidable (b.containsP p) := by
  unfold AABB.containsP
  infer_instance

/-- Modelled from the spec: the intersects helper is referenced but absent
from the sources; the standard closed AABB overlap test. -/
def AABB.intersects (a b : AABB) : Prop :=
  a.minX ≤ b.maxX ∧ b.minX ≤ a.maxX ∧ a.minY ≤ b.maxY ∧ b.minY ≤ a.maxY

instance (a b : AABB) : Decidable (a.intersects b) := by
  unfold AABB.intersects
  infer_instance

def AABB.midX (b : AABB) : ℚ := (b.minX + b.maxX) / 2

def AABB.midY (b : AABB) : ℚ := (b.minY + b.maxY) / 2

/-- Northeast quadrant: x and y at or above the midpoints. -/
def AABB.quadNE (b : AABB) : AABB := ⟨b.midX, b.maxX, b.midY, b.maxY⟩

def AABB.quadNW (b : AABB) : AABB := ⟨b.minX, b.midX, b.midY, b.maxY⟩

def AABB.quadSE (b : AABB) : AABB := ⟨b.midX, b.maxX, b.minY, b.midY⟩

def AABB.quadSW (b : AABB) : AABB := ⟨b.minX, b.midX, b.minY, b.midY⟩

/-- A quadtree node: a leaf holds points directly; a branch keeps its
(emptied) direct point list and owns four children. -/
inductive QuadTree where
  | leaf (bounds : AABB) (maxPoints maxDepth depth : Nat) (points : List QPoint)
  | branch (bounds : AABB) (maxPoints maxDepth depth : Nat)
      (points : List QPoint) (ne nw se sw : QuadTree)
deriving DecidableEq, Repr

def QuadTree.bounds : QuadTree → AABB
  | QuadTree.leaf b _ _ _ _ => b
  | QuadTree.branch b _ _ _ _ _ _ _ _ => b

def QuadTree.maxPointsVal : QuadTree → Nat
  | QuadTree.leaf _ mp _ _ _ => mp
  | QuadTree.branch _ mp _ _ _ _ _ _ _ => mp

def QuadTree.maxDepthVal : QuadTree → Nat
  | QuadTree.leaf _ _ md _ _ => md
  | QuadTree.branch _ _ md _ _ _ _ _ _ => md

def QuadTree.depthVal : QuadTree → Nat
  | QuadTree.leaf _ _ _ d _ => d
  | QuadTree.branch _ _ _ d _ _ _ _ _ => d

def QuadTree.pointsVal : QuadTree → List QPoint
  | QuadTree.leaf _ _ _ _ pts => pts
  | QuadTree.branch _ _ _ _ pts _ _ _ _ => pts

/-- The divided flag of the source. -/
def QuadTree.divided : QuadTree → Bool
  | QuadTree.leaf _ _ _ _ _ => false
  | QuadTree.branch _ _ _ _ _ _ _ _ _ => true

/-- The empty tree built by the QuadTree constructor. -/
def QuadTree.create (b : AABB) (maxPoints maxDepth : Nat) : QuadTree :=
  QuadTree.leaf b maxPoints maxDepth 0 []

/-- One four-way insertion attempt in source order (northeast, northwest,
southeast, southwest) with JS short-circuit evaluation: a later child is
attempted only after the earlier ones failed, and every attempted child
keeps its possibly mutated state. -/
def tryFour (ins : QuadTree → QPoint → QuadTree × Bool)
    (ne nw se sw : QuadTree) (p : QPoint) :
    (QuadTree × QuadTree × QuadTree × QuadTree) × Bool :=
  let rNE := ins ne p
  if rNE.2 then ((rNE.1, nw, se, sw), true)
  else
    let rNW := ins nw p
    if rNW.2 then ((rNE.1, rNW.1, se, sw), true)
    else
      let rSE := ins se p
      if rSE.2 then ((rNE.1, rNW.1, rSE.1, sw), true)
      else
        let rSW := ins sw p
        ((rNE.1, rNW.1, rSE.1, rSW.1), rSW.2)

/-- Single-level placement used during redistribution: push into a leaf
child when it contains the point and has spare capacity.  Behaviourally
equal to a full insert during subdivision, because the subdividing node
redistributes exactly maxPoints points, so no fresh child can overflow. -/
def pushLeaf : QuadTree → QPoint → QuadTree × Bool
  | QuadTree.leaf b mp md d pts, p =>
      if b.containsP p ∧ pts.length < mp then
        (QuadTree.leaf b mp md d (pts ++ [p]), true)
      else (QuadTree.leaf b mp md d pts, false)
  | t, _ => (t, false)

/-- Modelled from the spec: subdivide is referenced but absent from the
sources; it creates four children of equal quadrant size one level deeper
and redistributes the node's direct points into them. -/
def subdivideChildren (b : AABB) (mp md d : Nat) (pts : List QPoint) :
    QuadTree × QuadTree × QuadTree × QuadTree :=
  pts.foldl
    (fun cs q => (tryFour pushLeaf cs.1 cs.2.1 cs.2.2.1 cs.2.2.2 q).1)
    (QuadTree.leaf b.quadNE mp md (d+1) [],
     QuadTree.leaf b.quadNW mp md (d+1) [],
     QuadTree.leaf b.quadSE mp md (d+1) [],
     QuadTree.leaf b.quadSW mp md (d+1) [])

/-- Body of QuadTree.insert with the recursive occurrence abstracted:
reject out-of-bounds points, push into an undivided node with spare
capacity, otherwise subdivide (when not yet divided) and attempt the four
children in order. -/
def insertCore (ins : QuadTree → QPoint → QuadTree × Bool) :
    QuadTree → QPoint → QuadTree × Bool
  | QuadTree.leaf b mp md d pts, p =>
      if b.containsP p then
        if pts.length < mp then (QuadTree.leaf b mp md d (pts ++ [p]), true)
        else
          let cs := subdivideChildren b mp md d pts
          let r := tryFour ins cs.1 cs.2.1 cs.2.2.1 cs.2.2.2 p
          (QuadTree.branch b mp md d [] r.1.1 r.1.2.1 r.1.2.2.1 r.1.2.2.2, r.2)
      else (QuadTree.leaf b mp md d pts, false)
  | QuadTree.branch b mp md d pts ne nw se sw, p =>
      if b.containsP p then
        let r := tryFour ins ne nw se sw p
        (QuadTree.branch b mp md d pts r.1.1 r.1.2.1 r.1.2.2.1 r.1.2.2.2, r.2)
      else (QuadTree.branch b mp md d pts ne nw se sw, false)

/-- Embedding of QuadTree.insert, indexed by recursion fuel standing for
the JS call stack: at fuel zero the attempt fails with the tree untouched. -/
def QuadTree.insertFuel : Nat → QuadTree → QPoint → QuadTree × Bool
  | 0 => fun t _ => (t, false)
  | fuel+1 => insertCore (QuadTree.insertFuel fuel)

/-- Folding a list of points into the tree, one insert each. -/
def QuadTree.insertAll (f : Nat) (t : QuadTree) (ps : List QPoint) : QuadTree :=
  ps.foldl (fun acc q => (QuadTree.insertFuel f acc q).1) t

/-- Embedding of QuadTree.query: prune subtrees whose bounds do not
intersect the range, filter direct points, recurse into children, in
source order. -/
def QuadTree.query : QuadTree → AABB → List QPoint
  | QuadTree.leaf b _ _ _ pts, range =>
      if b.intersects range then
        pts.filter (fun p => decide (range.containsP p))
      else []
  | QuadTree.branch b _ _ _ pts ne nw se sw, range =>
      if b.intersects range then
        pts.filter (fun p => decide (range.containsP p)) ++
          ne.query range ++ nw.query range ++ se.query range ++ sw.query range
      else []

/-- A point is stored somewhere in the tree. -/
def QuadTree.memP (p : QPoint) : QuadTree → Prop
  | QuadTree.leaf _ _ _ _ pts => p ∈ pts
  | QuadTree.branch _ _ _ _ pts ne nw se sw =>
      p ∈ pts ∨ QuadTree.memP p ne ∨ QuadTree.memP p nw ∨
        QuadTree.memP p se ∨ QuadTree.memP p sw

/-- Structural invariant maintained by insertion: bounds are valid, points
sit inside their node's bounds, leaves respect capacity, a branch holds no
direct points and its children cover the four quadrants. -/
def QuadTree.inv : QuadTree → Prop
  | QuadTree.leaf b mp _ _ pts =>
      b.valid ∧ (∀ q ∈ pts, b.containsP q) ∧ pts.length ≤ mp
  | QuadTree.branch b _ _ _ pts ne nw se sw =>
      b.valid ∧ pts = [] ∧
      ne.bounds = b.quadNE ∧ nw.bounds = b.quadNW ∧
      se.bounds = b.quadSE ∧ sw.bounds = b.quadSW ∧
      QuadTree.inv ne ∧ QuadTree.inv nw ∧ QuadTree.inv se ∧ QuadTree.inv sw

def QuadTree.invDecidable : (t : QuadTree) → Decidable t.inv
  | QuadTree.leaf b mp md d pts => by
      unfold QuadTree.inv
      infer_instance
  | QuadTree.branch b mp md d pts ne nw se sw => by
      unfold QuadTree.inv
      letI := QuadTree.invDecidable ne
      letI := QuadTree.invDecidable nw
      letI := QuadTree.invDecidable se
      letI := QuadTree.invDecidable sw
      infer_instance

instance (t : QuadTree) : Decidable t.inv := QuadTree.invDecidable t

def QuadTree.memPDecidable (p : QPoint) : (t : QuadTree) → Decidable (t.memP p)
  | QuadTree.leaf b mp md d pts => by
      unfold QuadTree.memP
      infer_instance
  | QuadTree.branch b mp md d pts ne nw se sw => by
      unfold QuadTree.memP
      letI := QuadTree.memPDecidable p ne
      letI := QuadTree.memPDecidable p nw
      letI := QuadTree.memPDecidable p se
      letI := QuadTree.memPDecidable p sw
      infer_instance

instance (p : QPoint) (t : QuadTree) : Decidable (t.memP p) :=
  QuadTree.memPDecidable p t

/-! ### Geometric lemmas about quadrants -/

theorem AABB.quad_valid (b : AABB) (hv : b.valid) :
    b.quadNE.valid ∧ b.quadNW.valid ∧ b.quadSE.valid ∧ b.quadSW.valid := by
  obtain ⟨hx, hy⟩ := hv
  simp only [AABB.quadNE, AABB.quadNW, AABB.quadSE, AABB.quadSW, AABB.valid,
    AABB.midX, AABB.midY]
  refine ⟨⟨?_, ?_⟩, ⟨?_, ?_⟩, ⟨?_, ?_⟩, ⟨?_, ?_⟩⟩ <;> linarith

theorem AABB.quad_cover (b : AABB) (p : QPoint) (h : b.containsP p) :
    b.quadNE.containsP p ∨ b.quadNW.containsP p ∨
      b.quadSE.containsP p ∨ b.quadSW.containsP p := by
  obtain ⟨h1, h2, h3, h4⟩ := h
  simp only [AABB.quadNE, AABB.quadNW, AABB.quadSE, AABB.quadSW,
    AABB.containsP, AABB.midX, AABB.midY]
  by_cases hx : (b.minX + b.maxX) / 2 ≤ p.x <;>
    by_cases hy : (b.minY + b.maxY) / 2 ≤ p.y
  · exact Or.inl ⟨hx, h2, hy, h4⟩
  · exact Or.inr (Or.inr (Or.inl ⟨hx, h2, h3, not_le.mp hy⟩))
  · exact Or.inr (Or.inl ⟨h1, not_le.mp hx, hy, h4⟩)
  · exact Or.inr (Or.inr (Or.inr ⟨h1, not_le.mp hx, h3, not_le.mp hy⟩))

theorem AABB.quad_subset (b : AABB) (hv : b.valid) (p : QPoint)
    (h : b.quadNE.containsP p ∨ b.quadNW.containsP p ∨
      b.quadSE.containsP p ∨ b.quadSW.containsP p) :
    b.containsP p := by
  obtain ⟨hx, hy⟩ := hv
  simp only [AABB.quadNE, AABB.quadNW, AABB.quadSE, AABB.quadSW,
    AABB.containsP, AABB.midX, AABB.midY] at h ⊢
  rcases h with ⟨a1, a2, a3, a4⟩ | ⟨a1, a2, a3, a4⟩ | ⟨a1, a2, a3, a4⟩ |
    ⟨a1, a2, a3, a4⟩ <;>
    exact ⟨by linarith, by linarith, by linarith, by linarith⟩

theorem AABB.intersects_of_contains (a r : AABB) (p : QPoint)
    (ha : a.containsP p) (hr : r.containsP p) : a.intersects r := by
  obtain ⟨a1, a2, a3, a4⟩ := ha
  obtain ⟨r1, r2, r3, r4⟩ := hr
  exact ⟨by linarith, by linarith, by linarith, by linarith⟩

/-! ### Lemmas about the four-way attempt -/

/-- A point is stored in one of the four children of a quadruple. -/
def memPQ (p : QPoint) (cs : QuadTree × QuadTree × QuadTree × QuadTree) : Prop :=
  cs.1.memP p ∨ cs.2.1.memP p ∨ cs.2.2.1.memP p ∨ cs.2.2.2.memP p

theorem tryFour_pres (ins : QuadTree → QPoint → QuadTree × Bool)
    (ne nw se sw : QuadTree) (p : QPoint) (P : QuadTree → Prop)
    (hne : P ne) (hnw : P nw) (hse : P se) (hsw : P sw)
    (H : ∀ t, P t → P (ins t p).1) :
    P (tryFour ins ne nw se sw p).1.1 ∧
    P (tryFour ins ne nw se sw p).1.2.1 ∧
    P (tryFour ins ne nw se sw p).1.2.2.1 ∧
    P (tryFour ins ne nw se sw p).1.2.2.2 := by
  unfold tryFour
  dsimp only
  by_cases h1 : (ins ne p).2 = true
  · rw [if_pos h1]
    exact ⟨H ne hne, hnw, hse, hsw⟩
  · rw [if_neg h1]
    by_cases h2 : (ins nw p).2 = true
    · rw [if_pos h2]
      exact ⟨H ne hne, H nw hnw, hse, hsw⟩
    · rw [if_neg h2]
      by_cases h3 : (ins se p).2 = true
      · rw [if_pos h3]
        exact ⟨H ne hne, H nw hnw, H se hse, hsw⟩
      · rw [if_neg h3]
        exact ⟨H ne hne, H nw hnw, H se hse, H sw hsw⟩

theorem tryFour_bounds (ins : QuadTree → QPoint → QuadTree × Bool)
    (ne nw se sw : QuadTree) (p : QPoint)
    (H : ∀ t, ((ins t p).1).bounds = t.bounds) :
    (tryFour ins ne nw se sw p).1.1.bounds = ne.bounds ∧
    (tryFour ins ne nw se sw p).1.2.1.bounds = nw.bounds ∧
    (tryFour ins ne nw se sw p).1.2.2.1.bounds = se.bounds ∧
    (tryFour ins ne nw se sw p).1.2.2.2.bounds = sw.bounds := by
  unfold tryFour
  dsimp only
  by_cases h1 : (ins ne p).2 = true
  · rw [if_pos h1]
    exact ⟨H ne, rfl, rfl, rfl⟩
  · rw [if_neg h1]
    by_cases h2 : (ins nw p).2 = true
    · rw [if_pos h2]
      exact ⟨H ne, H nw, rfl, rfl⟩
    · rw [if_neg h2]
      by_cases h3 : (ins se p).2 = true
      · rw [if_pos h3]
        exact ⟨H ne, H nw, H se, rfl⟩
      · rw [if_neg h3]
        exact ⟨H ne, H nw, H se, H sw⟩

theorem tryFour_memP_mono (ins : QuadTree → QPoint → QuadTree × Bool)
    (ne nw se sw : QuadTree) (p q : QPoint)
    (Hne : ne.memP q → ((ins ne p).1).memP q)
    (Hnw : nw.memP q → ((ins nw p).1).memP q)
    (Hse : se.memP q → ((ins se p).1).memP q)
    (Hsw : sw.memP q → ((ins sw p).1).memP q)
    (h : ne.memP q ∨ nw.memP q ∨ se.memP q ∨ sw.memP q) :
    memPQ q (tryFour ins ne nw se sw p).1 := by
  unfold tryFour memPQ
  dsimp only
  by_cases h1 : (ins ne p).2 = true
  · rw [if_pos h1]
    dsimp only
    rcases h with h | h | h | h
    · exact Or.inl (Hne h)
    · exact Or.inr (Or.inl h)
    · exact Or.inr (Or.inr (Or.inl h))
    · exact Or.inr (Or.inr (Or.inr h))
  · rw [if_neg h1]
    by_cases h2 : (ins nw p).2 = true
    · rw [if_pos h2]
      dsimp only
      rcases h with h | h | h | h
      · exact Or.inl (Hne h)
      · exact Or.inr (Or.inl (Hnw h))
      · exact Or.inr (Or.inr (Or.inl h))
      · exact Or.inr (Or.inr (Or.inr h))
    · rw [if_neg h2]
      by_cases h3 : (ins se p).2 = true
      · rw [if_pos h3]
        dsimp only
        rcases h with h | h | h | h
        · exact Or.inl (Hne h)
        · exact Or.inr (Or.inl (Hnw h))
        · exact Or.inr (Or.inr (Or.inl (Hse h)))
        · exact Or.inr (Or.inr (Or.inr h))
      · rw [if_neg h3]
        dsimp only
        rcases h with h | h | h | h
        · exact Or.inl (Hne h)
        · exact Or.inr (Or.inl (Hnw h))
        · exact Or.inr (Or.inr (Or.inl (Hse h)))
        · exact Or.inr (Or.inr (Or.inr (Hsw h)))

theorem tryFour_memP_new (ins : QuadTree → QPoint → QuadTree × Bool)
    (ne nw se sw : QuadTree) (p : QPoint)
    (Hne : (ins ne p).2 = true → ((ins ne p).1).memP p)
    (Hnw : (ins nw p).2 = true → ((ins nw p).1).memP p)
    (Hse : (ins se p).2 = true → ((ins se p).1).memP p)
    (Hsw : (ins sw p).2 = true → ((ins sw p).1).memP p)
    (h : (tryFour ins ne nw se sw p).2 = true) :
    memPQ p (tryFour ins ne nw se sw p).1 := by
  unfold tryFour at h ⊢
  unfold memPQ
  dsimp only at h ⊢
  by_cases h1 : (ins ne p).2 = true
  · rw [if_pos h1]
    exact Or.inl (Hne h1)
  · rw [if_neg h1]
    rw [if_neg h1] at h
    by_cases h2 : (ins nw p).2 = true
    · rw [if_pos h2]
      exact Or.inr (Or.inl (Hnw h2))
    · rw [if_neg h2]
      rw [if_neg h2] at h
      by_cases h3 : (ins se p).2 = true
      · rw [if_pos h3]
        exact Or.inr (Or.inr (Or.inl (Hse h3)))
      · rw [if_neg h3]
        rw [if_neg h3] at h
        dsimp only at h
        exact Or.inr (Or.inr (Or.inr (Hsw h)))

/-! ### Redistribution lemmas -/

theorem pushLeaf_succeeds (b2 : AABB) (mp md d2 : Nat) (l : List QPoint)
    (a : QPoint) (hc : b2.containsP a) (hl : l.length < mp) :
    pushLeaf (QuadTree.leaf b2 mp md d2 l) a =
      (QuadTree.leaf b2 mp md d2 (l ++ [a]), true) := by
  unfold pushLeaf
  dsimp only
  rw [if_pos ⟨hc, hl⟩]

theorem pushLeaf_fails (b2 : AABB) (mp md d2 : Nat) (l : List QPoint)
    (a : QPoint) (hc : ¬ b2.containsP a) :
    pushLeaf (QuadTree.leaf b2 mp md d2 l) a =
      (QuadTree.leaf b2 mp md d2 l, false) := by
  unfold pushLeaf
  dsimp only
  rw [if_neg (fun hh => hc hh.1)]

theorem tryFour_pushLeaf_step (b : AABB) (mp md d : Nat)
    (l1 l2 l3 l4 : List QPoint) (a : QPoint) (ha : b.containsP a)
    (h1 : l1.length < mp) (h2 : l2.length < mp)
    (h3 : l3.length < mp) (h4 : l4.length < mp) :
    ∃ m1 m2 m3 m4,
      (tryFour pushLeaf (QuadTree.leaf b.quadNE mp md (d+1) l1)
        (QuadTree.leaf b.quadNW mp md (d+1) l2)
        (QuadTree.leaf b.quadSE mp md (d+1) l3)
        (QuadTree.leaf b.quadSW mp md (d+1) l4) a).1 =
        (QuadTree.leaf b.quadNE mp md (d+1) m1,
         QuadTree.leaf b.quadNW mp md (d+1) m2,
         QuadTree.leaf b.quadSE mp md (d+1) m3,
         QuadTree.leaf b.quadSW mp md (d+1) m4) ∧
      ((m1 = l1 ++ [a] ∧ m2 = l2 ∧ m3 = l3 ∧ m4 = l4 ∧ b.quadNE.containsP a) ∨
       (m1 = l1 ∧ m2 = l2 ++ [a] ∧ m3 = l3 ∧ m4 = l4 ∧ b.quadNW.containsP a) ∨
       (m1 = l1 ∧ m2 = l2 ∧ m3 = l3 ++ [a] ∧ m4 = l4 ∧ b.quadSE.containsP a) ∨
       (m1 = l1 ∧ m2 = l2 ∧ m3 = l3 ∧ m4 = l4 ++ [a] ∧ b.quadSW.containsP a)) := by
  have hcover := AABB.quad_cover b a ha
  by_cases c1 : b.quadNE.containsP a
  · refine ⟨l1 ++ [a], l2, l3, l4, ?_, Or.inl ⟨rfl, rfl, rfl, rfl, c1⟩⟩
    unfold tryFour
    dsimp only
    rw [pushLeaf_succeeds b.quadNE mp md (d+1) l1 a c1 h1]
    simp
  · by_cases c2 : b.quadNW.containsP a
    · refine ⟨l1, l2 ++ [a], l3, l4, ?_, Or.inr (Or.inl ⟨rfl, rfl, rfl, rfl, c2⟩)⟩
      unfold tryFour
      dsimp only
      rw [pushLeaf_fails b.quadNE mp md (d+1) l1 a c1,
        pushLeaf_succeeds b.quadNW mp md (d+1) l2 a c2 h2]
      simp
    · by_cases c3 : b.quadSE.containsP a
      · refine ⟨l1, l2, l3 ++ [a], l4, ?_,
          Or.inr (Or.inr (Or.inl ⟨rfl, rfl, rfl, rfl, c3⟩))⟩
        unfold tryFour
        dsimp only
        rw [pushLeaf_fails b.quadNE mp md (d+1) l1 a c1,
          pushLeaf_fails b.quadNW mp md (d+1) l2 a c2,
          pushLeaf_succeeds b.quadSE mp md (d+1) l3 a c3 h3]
        simp
      · have c4 : b.quadSW.containsP a := by
          rcases hcover with h | h | h | h
          · exact absurd h c1
          · exact absurd h c2
          · exact absurd h c3
          · exact h
        refine ⟨l1, l2, l3, l4 ++ [a], ?_,
          Or.inr (Or.inr (Or.inr ⟨rfl, rfl, rfl, rfl, c4⟩))⟩
        unfold tryFour
        dsimp only
        rw [pushLeaf_fails b.quadNE mp md (d+1) l1 a c1,
          pushLeaf_fails b.quadNW mp md (d+1) l2 a c2,
          pushLeaf_fails b.quadSE mp md (d+1) l3 a c3,
          pushLeaf_succeeds b.quadSW mp md (d+1) l4 a c4 h4]
        simp

theorem redistribute_go (b : AABB) (mp md d : Nat) :
    ∀ (rem l1 l2 l3 l4 : List QPoint),
      (∀ q ∈ rem, b.containsP q) →
      l1.length + l2.length + l3.length + l4.length + rem.length ≤ mp →
      (∀ q ∈ l1, b.quadNE.containsP q) → (∀ q ∈ l2, b.quadNW.containsP q) →
      (∀ q ∈ l3, b.quadSE.containsP q) → (∀ q ∈ l4, b.quadSW.containsP q) →
      ∃ m1 m2 m3 m4,
        rem.foldl (fun cs q => (tryFour pushLeaf cs.1 cs.2.1 cs.2.2.1 cs.2.2.2 q).1)
          (QuadTree.leaf b.quadNE mp md (d+1) l1,
           QuadTree.leaf b.quadNW mp md (d+1) l2,
           QuadTree.leaf b.quadSE mp md (d+1) l3,
           QuadTree.leaf b.quadSW mp md (d+1) l4) =
          (QuadTree.leaf b.quadNE mp md (d+1) m1,
           QuadTree.leaf b.quadNW mp md (d+1) m2,
           QuadTree.leaf b.quadSE mp md (d+1) m3,
           QuadTree.leaf b.quadSW mp md (d+1) m4) ∧
        (∀ q ∈ m1, b.quadNE.containsP q) ∧ (∀ q ∈ m2, b.quadNW.containsP q) ∧
        (∀ q ∈ m3, b.quadSE.containsP q) ∧ (∀ q ∈ m4, b.quadSW.containsP q) ∧
        m1.length + m2.length + m3.length + m4.length =
          l1.length + l2.length + l3.length + l4.length + rem.length ∧
        (∀ q, (q ∈ l1 ∨ q ∈ l2 ∨ q ∈ l3 ∨ q ∈ l4 ∨ q ∈ rem) →
          (q ∈ m1 ∨ q ∈ m2 ∨ q ∈ m3 ∨ q ∈ m4)) := by
  intro rem
  induction rem with
  | nil =>
      intro l1 l2 l3 l4 hrem hsum hc1 hc2 hc3 hc4
      refine ⟨l1, l2, l3, l4, rfl, hc1, hc2, hc3, hc4, by simp, ?_⟩
      intro q hq
      rcases hq with h | h | h | h | h
      · exact Or.inl h
      · exact Or.inr (Or.inl h)
      · exact Or.inr (Or.inr (Or.inl h))
      · exact Or.inr (Or.inr (Or.inr h))
      · exact absurd h (List.not_mem_nil q)
  | cons a rest ih =>
      intro l1 l2 l3 l4 hrem hsum hc1 hc2 hc3 hc4
      have ha : b.containsP a := hrem a (List.mem_cons_self a rest)
      have hlen : l1.length + l2.length + l3.length + l4.length +
          (rest.length + 1) ≤ mp := by
        simpa using hsum
      obtain ⟨m1, m2, m3, m4, hstep, hcase⟩ :=
        tryFour_pushLeaf_step b mp md d l1 l2 l3 l4 a ha
          (by omega) (by omega) (by omega) (by omega)
      rw [List.foldl_cons, hstep]
      have hrem2 : ∀ q ∈ rest, b.containsP q := fun q hq =>
        hrem q (List.mem_cons_of_mem a hq)
      rcases hcase with ⟨rfl, rfl, rfl, rfl, hca⟩ | ⟨rfl, rfl, rfl, rfl, hca⟩ |
        ⟨rfl, rfl, rfl, rfl, hca⟩ | ⟨rfl, rfl, rfl, rfl, hca⟩
      · obtain ⟨n1, n2, n3, n4, hfold, g1, g2, g3, g4, glen, gmem⟩ :=
          ih (l1 ++ [a]) m2 m3 m4 hrem2 (by simp; omega)
            (by intro q hq
                rcases List.mem_append.mp hq with h | h
                · exact hc1 q h
                · rw [List.mem_singleton.mp h]; exact hca)
            hc2 hc3 hc4
        refine ⟨n1, n2, n3, n4, hfold, g1, g2, g3, g4, by simp at glen ⊢; omega, ?_⟩
        intro q hq
        rcases hq with h | h | h | h | h
        · exact gmem q (Or.inl (List.mem_append_left _ h))
        · exact gmem q (Or.inr (Or.inl h))
        · exact gmem q (Or.inr (Or.inr (Or.inl h)))
        · exact gmem q (Or.inr (Or.inr (Or.inr (Or.inl h))))
        · rcases List.mem_cons.mp h with h | h
          · subst h
            exact gmem q (Or.inl (List.mem_append_right _ (List.mem_singleton_self q)))
          · exact gmem q (Or.inr (Or.inr (Or.inr (Or.inr h))))
      · obtain ⟨n1, n2, n3, n4, hfold, g1, g2, g3, g4, glen, gmem⟩ :=
          ih m1 (l2 ++ [a]) m3 m4 hrem2 (by simp; omega)
            hc1
            (by intro q hq
                rcases List.mem_append.mp hq with h | h
                · exact hc2 q h
                · rw [List.mem_singleton.mp h]; exact hca)
            hc3 hc4
        refine ⟨n1, n2, n3, n4, hfold, g1, g2, g3, g4, by simp at glen ⊢; omega, ?_⟩
        intro q hq
        rcases hq with h | h | h | h | h
        · exact gmem q (Or.inl h)
        · exact gmem q (Or.inr (Or.inl (List.mem_append_left _ h)))
        · exact gmem q (Or.inr (Or.inr (Or.inl h)))
        · exact gmem q (Or.inr (Or.inr (Or.inr (Or.inl h))))
        · rcases List.mem_cons.mp h with h | h
          · subst h
            exact gmem q (Or.inr (Or.inl (List.mem_append_right _
                (List.mem_singleton_self q))))
          · exact gmem q (Or.inr (Or.inr (Or.inr (Or.inr h))))
      · obtain ⟨n1, n2, n3, n4, hfold, g1, g2, g3, g4, glen, gmem⟩ :=
          ih m1 m2 (l3 ++ [a]) m4 hrem2 (by simp; omega)
            hc1 hc2
            (by intro q hq
                rcases List.mem_append.mp hq with h | h
                · exact hc3 q h
                · rw [List.mem_singleton.mp h]; exact hca)
            hc4
        refine ⟨n1, n2, n3, n4, hfold, g1, g2, g3, g4, by simp at glen ⊢; omega, ?_⟩
        intro q hq
        rcases hq with h | h | h | h | h
        · exact gmem q (Or.inl h)
        · exact gmem q (Or.inr (Or.inl h))
        · exact gmem q (Or.inr (Or.inr (Or.inl (List.mem_append_left _ h))))
        · exact gmem q (Or.inr (Or.inr (Or.inr (Or.inl h))))
        · rcases List.mem_cons.mp h with h | h
          · subst h
            exact gmem q (Or.inr (Or.inr (Or.inl (List.mem_append_right _
                (List.mem_singleton_self q)))))
          · exact gmem q (Or.inr (Or.inr (Or.inr (Or.inr h))))
      · obtain ⟨n1, n2, n3, n4, hfold, g1, g2, g3, g4, glen, gmem⟩ :=
          ih m1 m2 m3 (l4 ++ [a]) hrem2 (by simp; omega)
            hc1 hc2 hc3
            (by intro q hq
                rcases List.mem_append.mp hq with h | h
                · exact hc4 q h
                · rw [List.mem_singleton.mp h]; exact hca)
        refine ⟨n1, n2, n3, n4, hfold, g1, g2, g3, g4, by simp at glen ⊢; omega, ?_⟩
        intro q hq
        rcases hq with h | h | h | h | h
        · exact gmem q (Or.inl h)
        · exact gmem q (Or.inr (Or.inl h))
        · exact gmem q (Or.inr (Or.inr (Or.inl h)))
        · exact gmem q (Or.inr (Or.inr (Or.inr (Or.inl (List.mem_append_left _ h)))))
        · rcases List.mem_cons.mp h with h | h
          · subst h
            exact gmem q (Or.inr (Or.inr (Or.inr (Or.inl
                (List.mem_append_right _ (List.mem_singleton_self q))))))
          · exact gmem q (Or.inr (Or.inr (Or.inr (Or.inr h))))

theorem subdivideChildren_spec (b : AABB) (mp md d : Nat) (pts : List QPoint)
    (hbv : b.valid) (hcont : ∀ q ∈ pts, b.containsP q)
    (hlen : pts.length ≤ mp) :
    ∃ m1 m2 m3 m4,
      subdivideChildren b mp md d pts =
        (QuadTree.leaf b.quadNE mp md (d+1) m1,
         QuadTree.leaf b.quadNW mp md (d+1) m2,
         QuadTree.leaf b.quadSE mp md (d+1) m3,
         QuadTree.leaf b.quadSW mp md (d+1) m4) ∧
      (QuadTree.leaf b.quadNE mp md (d+1) m1).inv ∧
      (QuadTree.leaf b.quadNW mp md (d+1) m2).inv ∧
      (QuadTree.leaf b.quadSE mp md (d+1) m3).inv ∧
      (QuadTree.leaf b.quadSW mp md (d+1) m4).inv ∧
      (∀ q ∈ pts, q ∈ m1 ∨ q ∈ m2 ∨ q ∈ m3 ∨ q ∈ m4) := by
  obtain ⟨m1, m2, m3, m4, hfold, g1, g2, g3, g4, glen, gmem⟩ :=
    redistribute_go b mp md d pts [] [] [] [] hcont (by simpa using hlen)
      (by simp) (by simp) (by simp) (by simp)
  have hsum : m1.length + m2.length + m3.length + m4.length = pts.length := by
    simpa using glen
  obtain ⟨v1, v2, v3, v4⟩ := AABB.quad_valid b hbv
  refine ⟨m1, m2, m3, m4, hfold, ⟨v1, g1, by omega⟩, ⟨v2, g2, by omega⟩,
    ⟨v3, g3, by omega⟩, ⟨v4, g4, by omega⟩, ?_⟩
  intro q hq
  exact gmem q (Or.inr (Or.inr (Or.inr (Or.inr hq))))

/-! ### Insertion lemmas -/

theorem insertCore_bounds (ins : QuadTree → QPoint → QuadTree × Bool)
    (t : QuadTree) (p : QPoint) :
    ((insertCore ins t p).1).bounds = t.bounds := by
  cases t with
  | leaf b mp md d pts =>
      unfold insertCore
      dsimp only
      by_cases hc : b.containsP p
      · rw [if_pos hc]
        by_cases hl : pts.length < mp
        · rw [if_pos hl]
          rfl
        · rw [if_neg hl]
          rfl
      · rw [if_neg hc]
  | branch b mp md d pts ne nw se sw =>
      unfold insertCore
      dsimp only
      by_cases hc : b.containsP p
      · rw [if_pos hc]
        rfl
      · rw [if_neg hc]

theorem insertFuel_bounds (fuel : Nat) (t : QuadTree) (p : QPoint) :
    ((QuadTree.insertFuel fuel t p).1).bounds = t.bounds := by
  cases fuel with
  | zero => rfl
  | succ n => exact insertCore_bounds (QuadTree.insertFuel n) t p

theorem insertCore_inv (ins : QuadTree → QPoint → QuadTree × Bool) (p : QPoint)
    (H1 : ∀ t2, t2.inv → ((ins t2 p).1).inv)
    (H2 : ∀ t2, ((ins t2 p).1).bounds = t2.bounds) :
    ∀ t, t.inv → ((insertCore ins t p).1).inv := by
  intro t hinv
  cases t with
  | leaf b mp md d pts =>
      obtain ⟨hbv, hcont, hlen⟩ := hinv
      unfold insertCore
      dsimp only
      by_cases hc : b.containsP p
      · rw [if_pos hc]
        by_cases hl : pts.length < mp
        · rw [if_pos hl]
          refine ⟨hbv, ?_, ?_⟩
          · intro q hq
            rcases List.mem_append.mp hq with h | h
            · exact hcont q h
            · rw [List.mem_singleton.mp h]
              exact hc
          · simp only [List.length_append, List.length_singleton]
            omega
        · rw [if_neg hl]
          dsimp only
          obtain ⟨m1, m2, m3, m4, hfold, i1, i2, i3, i4, hmem⟩ :=
            subdivideChildren_spec b mp md d pts hbv hcont hlen
          rw [hfold]
          dsimp only
          have hb := tryFour_bounds ins (QuadTree.leaf b.quadNE mp md (d+1) m1)
            (QuadTree.leaf b.quadNW mp md (d+1) m2)
            (QuadTree.leaf b.quadSE mp md (d+1) m3)
            (QuadTree.leaf b.quadSW mp md (d+1) m4) p H2
          have hi := tryFour_pres ins (QuadTree.leaf b.quadNE mp md (d+1) m1)
            (QuadTree.leaf b.quadNW mp md (d+1) m2)
            (QuadTree.leaf b.quadSE mp md (d+1) m3)
            (QuadTree.leaf b.quadSW mp md (d+1) m4) p QuadTree.inv i1 i2 i3 i4
            (fun t2 ht2 => H1 t2 ht2)
          exact ⟨hbv, rfl, hb.1, hb.2.1, hb.2.2.1, hb.2.2.2,
            hi.1, hi.2.1, hi.2.2.1, hi.2.2.2⟩
      · rw [if_neg hc]
        exact ⟨hbv, hcont, hlen⟩
  | branch b mp md d pts ne nw se sw =>
      obtain ⟨hbv, hpts, e1, e2, e3, e4, i1, i2, i3, i4⟩ := hinv
      unfold insertCore
      dsimp only
      by_cases hc : b.containsP p
      · rw [if_pos hc]
        dsimp only
        have hb := tryFour_bounds ins ne nw se sw p H2
        have hi := tryFour_pres ins ne nw se sw p QuadTree.inv i1 i2 i3 i4
          (fun t2 ht2 => H1 t2 ht2)
        exact ⟨hbv, hpts, by rw [hb.1, e1], by rw [hb.2.1, e2],
          by rw [hb.2.2.1, e3], by rw [hb.2.2.2, e4],
          hi.1, hi.2.1, hi.2.2.1, hi.2.2.2⟩
      · rw [if_neg hc]
        exact ⟨hbv, hpts, e1, e2, e3, e4, i1, i2, i3, i4⟩

theorem insertFuel_inv (fuel : Nat) (p : QPoint) :
    ∀ t, t.inv → ((QuadTree.insertFuel fuel t p).1).inv := by
  induction fuel with
  | zero => intro t h; exact h
  | succ n ih =>
      intro t h
      exact insertCore_inv (QuadTree.insertFuel n) p (fun t2 ht2 => ih t2 ht2)
        (fun t2 => insertFuel_bounds n t2 p) t h

theorem insertCore_memP_mono (ins : QuadTree → QPoint → QuadTree × Bool)
    (p q : QPoint)
    (Hins : ∀ t2, t2.inv → t2.memP q → ((ins t2 p).1).memP q) :
    ∀ t, t.inv → t.memP q → ((insertCore ins t p).1).memP q := by
  intro t hinv hq
  cases t with
  | leaf b mp md d pts =>
      obtain ⟨hbv, hcont, hlen⟩ := hinv
      unfold insertCore
      dsimp only
      by_cases hc : b.containsP p
      · rw [if_pos hc]
        by_cases hl : pts.length < mp
        · rw [if_pos hl]
          exact List.mem_append_left _ hq
        · rw [if_neg hl]
          dsimp only
          obtain ⟨m1, m2, m3, m4, hfold, i1, i2, i3, i4, hmem⟩ :=
            subdivideChildren_spec b mp md d pts hbv hcont hlen
          rw [hfold]
          dsimp only
          have hstart : (QuadTree.leaf b.quadNE mp md (d+1) m1).memP q ∨
              (QuadTree.leaf b.quadNW mp md (d+1) m2).memP q ∨
              (QuadTree.leaf b.quadSE mp md (d+1) m3).memP q ∨
              (QuadTree.leaf b.quadSW mp md (d+1) m4).memP q := hmem q hq
          have hfin := tryFour_memP_mono ins
            (QuadTree.leaf b.quadNE mp md (d+1) m1)
            (QuadTree.leaf b.quadNW mp md (d+1) m2)
            (QuadTree.leaf b.quadSE mp md (d+1) m3)
            (QuadTree.leaf b.quadSW mp md (d+1) m4) p q
            (fun h => Hins _ i1 h) (fun h => Hins _ i2 h)
            (fun h => Hins _ i3 h) (fun h => Hins _ i4 h) hstart
          exact Or.inr hfin
      · rw [if_neg hc]
        exact hq
  | branch b mp md d pts ne nw se sw =>
      obtain ⟨hbv, hpts, e1, e2, e3, e4, i1, i2, i3, i4⟩ := hinv
      unfold insertCore
      dsimp only
      by_cases hc : b.containsP p
      · rw [if_pos hc]
        dsimp only
        rcases hq with h | h
        · exact Or.inl h
        · have hfin := tryFour_memP_mono ins ne nw se sw p q
            (fun hh => Hins _ i1 hh) (fun hh => Hins _ i2 hh)
            (fun hh => Hins _ i3 hh) (fun hh => Hins _ i4 hh) h
          exact Or.inr hfin
      · rw [if_neg hc]
        exact hq

theorem insertFuel_memP_mono (fuel : Nat) (p q : QPoint) :
    ∀ t, t.inv → t.memP q → ((QuadTree.insertFuel fuel t p).1).memP q := by
  induction fuel with
  | zero => intro t _ h; exact h
  | succ n ih =>
      intro t hinv h
      exact insertCore_memP_mono (QuadTree.insertFuel n) p q
        (fun t2 ht2 hq2 => ih t2 ht2 hq2) t hinv h

theorem insertCore_memP_new (ins : QuadTree → QPoint → QuadTree × Bool)
    (p : QPoint)
    (Hins : ∀ t2, (ins t2 p).2 = true → ((ins t2 p).1).memP p) :
    ∀ t, (insertCore ins t p).2 = true → ((insertCore ins t p).1).memP p := by
  intro t hsucc
  cases t with
  | leaf b mp md d pts =>
      unfold insertCore at hsucc ⊢
      dsimp only at hsucc ⊢
      by_cases hc : b.containsP p
      · rw [if_pos hc] at hsucc ⊢
        by_cases hl : pts.length < mp
        · rw [if_pos hl]
          exact List.mem_append_right _ (List.mem_singleton_self p)
        · rw [if_neg hl] at hsucc ⊢
          dsimp only at hsucc ⊢
          have hfin := tryFour_memP_new ins _ _ _ _ p
            (Hins _) (Hins _) (Hins _) (Hins _) hsucc
          exact Or.inr hfin
      · rw [if_neg hc] at hsucc
        dsimp only at hsucc
        exact absurd hsucc (by simp)
  | branch b mp md d pts ne nw se sw =>
      unfold insertCore at hsucc ⊢
      dsimp only at hsucc ⊢
      by_cases hc : b.containsP p
      · rw [if_pos hc] at hsucc ⊢
        dsimp only at hsucc ⊢
        have hfin := tryFour_memP_new ins ne nw se sw p
          (Hins _) (Hins _) (Hins _) (Hins _) hsucc
        exact Or.inr hfin
      · rw [if_neg hc] at hsucc
        dsimp only at hsucc
        exact absurd hsucc (by simp)

theorem insertFuel_memP_new (fuel : Nat) (p : QPoint) :
    ∀ t, (QuadTree.insertFuel fuel t p).2 = true →
      ((QuadTree.insertFuel fuel t p).1).memP p := by
  induction fuel with
  | zero =>
      intro t h
      exact absurd h (by simp [QuadTree.insertFuel])
  | succ n ih =>
      intro t h
      exact insertCore_memP_new (QuadTree.insertFuel n) p
        (fun t2 h2 => ih t2 h2) t h

/-! ### Query lemmas -/

theorem query_sound : ∀ (t : QuadTree) (range : AABB) (q : QPoint),
    q ∈ t.query range → range.containsP q := by
  intro t
  induction t with
  | leaf b mp md d pts =>
      intro range q h
      unfold QuadTree.query at h
      by_cases hi : b.intersects range
      · rw [if_pos hi] at h
        exact of_decide_eq_true (List.mem_filter.mp h).2
      · rw [if_neg hi] at h
        exact absurd h (List.not_mem_nil q)
  | branch b mp md d pts ne nw se sw ihne ihnw ihse ihsw =>
      intro range q h
      unfold QuadTree.query at h
      by_cases hi : b.intersects range
      · rw [if_pos hi] at h
        simp only [List.mem_append] at h
        rcases h with ((((h | h) | h) | h) | h)
        · exact of_decide_eq_true (List.mem_filter.mp h).2
        · exact ihne range q h
        · exact ihnw range q h
        · exact ihse range q h
        · exact ihsw range q h
      · rw [if_neg hi] at h
        exact absurd h (List.not_mem_nil q)

theorem memP_bounds : ∀ (t : QuadTree), t.inv → ∀ q, t.memP q →
    t.bounds.containsP q := by
  intro t
  induction t with
  | leaf b mp md d pts =>
      intro hinv q hq
      obtain ⟨hbv, hcont, hlen⟩ := hinv
      exact hcont q hq
  | branch b mp md d pts ne nw se sw ihne ihnw ihse ihsw =>
      intro hinv q hq
      obtain ⟨hbv, hpts, e1, e2, e3, e4, i1, i2, i3, i4⟩ := hinv
      rcases hq with h | h | h | h | h
      · rw [hpts] at h
        exact absurd h (List.not_mem_nil q)
      · have hb := ihne i1 q h
        rw [e1] at hb
        exact AABB.quad_subset b hbv q (Or.inl hb)
      · have hb := ihnw i2 q h
        rw [e2] at hb
        exact AABB.quad_subset b hbv q (Or.inr (Or.inl hb))
      · have hb := ihse i3 q h
        rw [e3] at hb
        exact AABB.quad_subset b hbv q (Or.inr (Or.inr (Or.inl hb)))
      · have hb := ihsw i4 q h
        rw [e4] at hb
        exact AABB.quad_subset b hbv q (Or.inr (Or.inr (Or.inr hb)))

theorem query_complete : ∀ (t : QuadTree), t.inv →
    ∀ (q : QPoint) (range : AABB), t.memP q → range.containsP q →
      q ∈ t.query range := by
  intro t
  induction t with
  | leaf b mp md d pts =>
      intro hinv q range hq hr
      obtain ⟨hbv, hcont, hlen⟩ := hinv
      unfold QuadTree.query
      rw [if_pos (AABB.intersects_of_contains b range q (hcont q hq) hr)]
      exact List.mem_filter.mpr ⟨hq, decide_eq_true hr⟩
  | branch b mp md d pts ne nw se sw ihne ihnw ihse ihsw =>
      intro hinv q range hq hr
      have hb : b.containsP q := memP_bounds _ hinv q hq
      obtain ⟨hbv, hpts, e1, e2, e3, e4, i1, i2, i3, i4⟩ := hinv
      unfold QuadTree.query
      rw [if_pos (AABB.intersects_of_contains b range q hb hr)]
      simp only [List.mem_append]
      rcases hq with h | h | h | h | h
      · rw [hpts] at h
        exact absurd h (List.not_mem_nil q)
      · exact Or.inl (Or.inl (Or.inl (Or.inr (ihne i1 q range h hr))))
      · exact Or.inl (Or.inl (Or.inr (ihnw i2 q range h hr)))
      · exact Or.inl (Or.inr (ihse i3 q range h hr))
      · exact Or.inr (ihsw i4 q range h hr)

theorem create_inv (b : AABB) (mp md : Nat) (hb : b.valid) :
    (QuadTree.create b mp md).inv :=
  ⟨hb, fun q hq => absurd hq (List.not_mem_nil q), Nat.zero_le mp⟩

theorem insertAll_inv (f : Nat) (ps : List QPoint) :
    ∀ t, t.inv → (QuadTree.insertAll f t ps).inv := by
  induction ps with
  | nil => intro t h; exact h
  | cons a rest ih =>
      intro t h
      exact ih ((QuadTree.insertFuel f t a).1) (insertFuel_inv f a t h)

theorem insertAll_memP_mono (f : Nat) (ps : List QPoint) (q : QPoint) :
    ∀ t, t.inv → t.memP q → (QuadTree.insertAll f t ps).memP q := by
  induction ps with
  | nil => intro t _ h; exact h
  | cons a rest ih =>
      intro t hinv h
      exact ih ((QuadTree.insertFuel f t a).1) (insertFuel_inv f a t hinv)
        (insertFuel_memP_mono f a q t hinv h)

/-- C1: every point successfully inserted into a quadtree built over valid
root bounds is returned by query for every range containing its location,
and is absent from query for every range not containing its location —
whatever points were inserted before or after it. -/
theorem quadtree_containment (b : AABB) (mp md f : Nat)
    (ps qs : List QPoint) (p : QPoint) (r : AABB)
    (hb : b.valid)
    (hins : (QuadTree.insertFuel f
      (QuadTree.insertAll f (QuadTree.create b mp md) ps) p).2 = true) :
    (r.containsP p →
      p ∈ (QuadTree.insertAll f
        (QuadTree.insertFuel f
          (QuadTree.insertAll f (QuadTree.create b mp md) ps) p).1 qs).query r) ∧
    (¬ r.containsP p →
      p ∉ (QuadTree.insertAll f
        (QuadTree.insertFuel f
          (QuadTree.insertAll f (QuadTree.create b mp md) ps) p).1 qs).query r) := by
  have hinv0 : (QuadTree.insertAll f (QuadTree.create b mp md) ps).inv :=
    insertAll_inv f ps (QuadTree.create b mp md) (create_inv b mp md hb)
  have hinv1 : ((QuadTree.insertFuel f
      (QuadTree.insertAll f (QuadTree.create b mp md) ps) p).1).inv :=
    insertFuel_inv f p _ hinv0
  have hmem1 : ((QuadTree.insertFuel f
      (QuadTree.insertAll f (QuadTree.create b mp md) ps) p).1).memP p :=
    insertFuel_memP_new f p _ hins
  have hinv2 : (QuadTree.insertAll f
      (QuadTree.insertFuel f
        (QuadTree.insertAll f (QuadTree.create b mp md) ps) p).1 qs).inv :=
    insertAll_inv f qs _ hinv1
  have hmem2 : (QuadTree.insertAll f
      (QuadTree.insertFuel f
        (QuadTree.insertAll f (QuadTree.create b mp md) ps) p).1 qs).memP p :=
    insertAll_memP_mono f qs p _ hinv1 hmem1
  constructor
  · intro hr
    exact query_complete _ hinv2 p r hmem2 hr
  · intro hr hq
    exact hr (query_sound _ r p hq)

/-- Closed witness for quadtree containment: a point inserted between two
others, with a range containing it. -/
theorem quadtree_containment_witness :
    ((⟨0, 4, 0, 4⟩ : AABB).containsP ⟨2, 2⟩ →
      (⟨2, 2⟩ : QPoint) ∈ (QuadTree.insertAll 1
        (QuadTree.insertFuel 1
          (QuadTree.insertAll 1 (QuadTree.create ⟨0, 16, 0, 16⟩ 5 5) [⟨1, 1⟩])
          ⟨2, 2⟩).1 [⟨3, 3⟩]).query ⟨0, 4, 0, 4⟩) ∧
    (¬ (⟨0, 4, 0, 4⟩ : AABB).containsP ⟨2, 2⟩ →
      (⟨2, 2⟩ : QPoint) ∉ (QuadTree.insertAll 1
        (QuadTree.insertFuel 1
          (QuadTree.insertAll 1 (QuadTree.create ⟨0, 16, 0, 16⟩ 5 5) [⟨1, 1⟩])
          ⟨2, 2⟩).1 [⟨3, 3⟩]).query ⟨0, 4, 0, 4⟩) :=
  quadtree_containment ⟨0, 16, 0, 16⟩ 5 5 1 [⟨1, 1⟩] [⟨3, 3⟩] ⟨2, 2⟩
    ⟨0, 4, 0, 4⟩ (by decide) (by decide)

/-- C5: inserting an in-bounds point into a full undivided node subdivides
it into exactly four children of equal quadrant size, empties the node's
direct point list and redistributes its points into the children. -/
theorem quadtree_subdivision (b : AABB) (mp md d f : Nat) (pts : List QPoint)
    (p : QPoint)
    (hinv : (QuadTree.leaf b mp md d pts).inv)
    (hfull : ¬ pts.length < mp)
    (hp : b.containsP p) :
    ∃ ne nw se sw,
      (QuadTree.insertFuel (f+1) (QuadTree.leaf b mp md d pts) p).1 =
        QuadTree.branch b mp md d [] ne nw se sw ∧
      ne.bounds = b.quadNE ∧ nw.bounds = b.quadNW ∧
      se.bounds = b.quadSE ∧ sw.bounds = b.quadSW ∧
      ne.bounds.maxX - ne.bounds.minX = (b.maxX - b.minX) / 2 ∧
      ne.bounds.maxY - ne.bounds.minY = (b.maxY - b.minY) / 2 ∧
      nw.bounds.maxX - nw.bounds.minX = (b.maxX - b.minX) / 2 ∧
      nw.bounds.maxY - nw.bounds.minY = (b.maxY - b.minY) / 2 ∧
      se.bounds.maxX - se.bounds.minX = (b.maxX - b.minX) / 2 ∧
      se.bounds.maxY - se.bounds.minY = (b.maxY - b.minY) / 2 ∧
      sw.bounds.maxX - sw.bounds.minX = (b.maxX - b.minX) / 2 ∧
      sw.bounds.maxY - sw.bounds.minY = (b.maxY - b.minY) / 2 ∧
      (∀ q ∈ pts, ne.memP q ∨ nw.memP q ∨ se.memP q ∨ sw.memP q) := by
  obtain ⟨hbv, hcont, hlen⟩ := hinv
  obtain ⟨m1, m2, m3, m4, hfold, i1, i2, i3, i4, hmem⟩ :=
    subdivideChildren_spec b mp md d pts hbv hcont hlen
  have hstep : (QuadTree.insertFuel (f+1) (QuadTree.leaf b mp md d pts) p).1 =
      QuadTree.branch b mp md d []
        (tryFour (QuadTree.insertFuel f)
          (QuadTree.leaf b.quadNE mp md (d+1) m1)
          (QuadTree.leaf b.quadNW mp md (d+1) m2)
          (QuadTree.leaf b.quadSE mp md (d+1) m3)
          (QuadTree.leaf b.quadSW mp md (d+1) m4) p).1.1
        (tryFour (QuadTree.insertFuel f)
          (QuadTree.leaf b.quadNE mp md (d+1) m1)
          (QuadTree.leaf b.quadNW mp md (d+1) m2)
          (QuadTree.leaf b.quadSE mp md (d+1) m3)
          (QuadTree.leaf b.quadSW mp md (d+1) m4) p).1.2.1
        (tryFour (QuadTree.insertFuel f)
          (QuadTree.leaf b.quadNE mp md (d+1) m1)
          (QuadTree.leaf b.quadNW mp md (d+1) m2)
          (QuadTree.leaf b.quadSE mp md (d+1) m3)
          (QuadTree.leaf b.quadSW mp md (d+1) m4) p).1.2.2.1
        (tryFour (QuadTree.insertFuel f)
          (QuadTree.leaf b.quadNE mp md (d+1) m1)
          (QuadTree.leaf b.quadNW mp md (d+1) m2)
          (QuadTree.leaf b.quadSE mp md (d+1) m3)
          (QuadTree.leaf b.quadSW mp md (d+1) m4) p).1.2.2.2 := by
    show (insertCore (QuadTree.insertFuel f) (QuadTree.leaf b mp md d pts) p).1 = _
    unfold insertCore
    dsimp only
    rw [if_pos hp, if_neg hfull]
    dsimp only
    rw [hfold]
  have hb := tryFour_bounds (QuadTree.insertFuel f)
    (QuadTree.leaf b.quadNE mp md (d+1) m1)
    (QuadTree.leaf b.quadNW mp md (d+1) m2)
    (QuadTree.leaf b.quadSE mp md (d+1) m3)
    (QuadTree.leaf b.quadSW mp md (d+1) m4) p
    (fun t2 => insertFuel_bounds f t2 p)
  refine ⟨_, _, _, _, hstep, hb.1, hb.2.1, hb.2.2.1, hb.2.2.2,
    ?_, ?_, ?_, ?_, ?_, ?_, ?_, ?_, ?_⟩
  · rw [hb.1]
    simp only [QuadTree.bounds]
    unfold AABB.quadNE AABB.midX AABB.midY
    ring
  · rw [hb.1]
    simp only [QuadTree.bounds]
    unfold AABB.quadNE AABB.midX AABB.midY
    ring
  · rw [hb.2.1]
    simp only [QuadTree.bounds]
    unfold AABB.quadNW AABB.midX AABB.midY
    ring
  · rw [hb.2.1]
    simp only [QuadTree.bounds]
    unfold AABB.quadNW AABB.midX AABB.midY
    ring
  · rw [hb.2.2.1]
    simp only [QuadTree.bounds]
    unfold AABB.quadSE AABB.midX AABB.midY
    ring
  · rw [hb.2.2.1]
    simp only [QuadTree.bounds]
    unfold AABB.quadSE AABB.midX AABB.midY
    ring
  · rw [hb.2.2.2]
    simp only [QuadTree.bounds]
    unfold AABB.quadSW AABB.midX AABB.midY
    ring
  · rw [hb.2.2.2]
    simp only [QuadTree.bounds]
    unfold AABB.quadSW AABB.midX AABB.midY
    ring
  · intro q hq
    exact tryFour_memP_mono (QuadTree.insertFuel f)
      (QuadTree.leaf b.quadNE mp md (d+1) m1)
      (QuadTree.leaf b.quadNW mp md (d+1) m2)
      (QuadTree.leaf b.quadSE mp md (d+1) m3)
      (QuadTree.leaf b.quadSW mp md (d+1) m4) p q
      (fun h => insertFuel_memP_mono f p q _ i1 h)
      (fun h => insertFuel_memP_mono f p q _ i2 h)
      (fun h => insertFuel_memP_mono f p q _ i3 h)
      (fun h => insertFuel_memP_mono f p q _ i4 h)
      (hmem q hq)

/-- Closed witness for subdivision: the scenario's 11th insert into a node
full with 10 points and maxPointsPerNode 10, maxDepth 1. -/
theorem quadtree_subdivision_witness :
    ∃ ne nw se sw,
      (QuadTree.insertFuel 4
        (QuadTree.leaf ⟨0, 16, 0, 16⟩ 10 1 0
          [⟨1, 1⟩, ⟨3, 1⟩, ⟨5, 1⟩, ⟨7, 1⟩, ⟨9, 1⟩, ⟨11, 1⟩, ⟨13, 1⟩, ⟨15, 1⟩,
           ⟨1, 9⟩, ⟨9, 9⟩]) ⟨5, 9⟩).1 =
        QuadTree.branch ⟨0, 16, 0, 16⟩ 10 1 0 [] ne nw se sw ∧
      ne.bounds = (⟨0, 16, 0, 16⟩ : AABB).quadNE ∧
      nw.bounds = (⟨0, 16, 0, 16⟩ : AABB).quadNW ∧
      se.bounds = (⟨0, 16, 0, 16⟩ : AABB).quadSE ∧
      sw.bounds = (⟨0, 16, 0, 16⟩ : AABB).quadSW ∧
      ne.bounds.maxX - ne.bounds.minX = ((16 : ℚ) - 0) / 2 ∧
      ne.bounds.maxY - ne.bounds.minY = ((16 : ℚ) - 0) / 2 ∧
      nw.bounds.maxX - nw.bounds.minX = ((16 : ℚ) - 0) / 2 ∧
      nw.bounds.maxY - nw.bounds.minY = ((16 : ℚ) - 0) / 2 ∧
      se.bounds.maxX - se.bounds.minX = ((16 : ℚ) - 0) / 2 ∧
      se.bounds.maxY - se.bounds.minY = ((16 : ℚ) - 0) / 2 ∧
      sw.bounds.maxX - sw.bounds.minX = ((16 : ℚ) - 0) / 2 ∧
      sw.bounds.maxY - sw.bounds.minY = ((16 : ℚ) - 0) / 2 ∧
      (∀ q ∈ [(⟨1, 1⟩ : QPoint), ⟨3, 1⟩, ⟨5, 1⟩, ⟨7, 1⟩, ⟨9, 1⟩, ⟨11, 1⟩,
          ⟨13, 1⟩, ⟨15, 1⟩, ⟨1, 9⟩, ⟨9, 9⟩],
        ne.memP q ∨ nw.memP q ∨ se.memP q ∨ sw.memP q) :=
  quadtree_subdivision ⟨0, 16, 0, 16⟩ 10 1 0 3
    [⟨1, 1⟩, ⟨3, 1⟩, ⟨5, 1⟩, ⟨7, 1⟩, ⟨9, 1⟩, ⟨11, 1⟩, ⟨13, 1⟩, ⟨15, 1⟩,
     ⟨1, 9⟩, ⟨9, 9⟩] ⟨5, 9⟩ (by decide) (by decide) (by decide)

/-- C6: the insert of the sources never consults maxDepth — a full node at
depth equal to maxDepth still subdivides on the next in-bounds insert
(here a tree created with maxPointsPerNode 1 and maxDepth 0 subdivides its
root, which sits at depth 0 = maxDepth), contradicting the claimed
bounded-overflow behaviour; the stored maxDepth parameter is dead in the
insertion code. -/
theorem quadtree_maxDepth_ignored :
    ∃ ne nw se sw,
      (QuadTree.insertFuel 2
        ((QuadTree.insertFuel 2 (QuadTree.create ⟨0, 4, 0, 4⟩ 1 0) ⟨1, 1⟩).1)
        ⟨2, 2⟩).1 = QuadTree.branch ⟨0, 4, 0, 4⟩ 1 0 0 [] ne nw se sw ∧
      (QuadTree.insertFuel 2
        ((QuadTree.insertFuel 2 (QuadTree.create ⟨0, 4, 0, 4⟩ 1 0) ⟨1, 1⟩).1)
        ⟨2, 2⟩).1.divided = true ∧
      (QuadTree.insertFuel 2
        ((QuadTree.insertFuel 2 (QuadTree.create ⟨0, 4, 0, 4⟩ 1 0) ⟨1, 1⟩).1)
        ⟨2, 2⟩).1.depthVal = 0 ∧
      (QuadTree.insertFuel 2
        ((QuadTree.insertFuel 2 (QuadTree.create ⟨0, 4, 0, 4⟩ 1 0) ⟨1, 1⟩).1)
        ⟨2, 2⟩).1.maxDepthVal = 0 := by
  have h1 : (QuadTree.insertFuel 2 (QuadTree.create ⟨0, 4, 0, 4⟩ 1 0) ⟨1, 1⟩).1 =
      QuadTree.leaf ⟨0, 4, 0, 4⟩ 1 0 0 [⟨1, 1⟩] := by decide
  rw [h1]
  have hstep : (QuadTree.insertFuel 2
      (QuadTree.leaf ⟨0, 4, 0, 4⟩ 1 0 0 [⟨1, 1⟩]) ⟨2, 2⟩).1 =
      QuadTree.branch ⟨0, 4, 0, 4⟩ 1 0 0 []
        (tryFour (QuadTree.insertFuel 1)
          (subdivideChildren ⟨0, 4, 0, 4⟩ 1 0 0 [⟨1, 1⟩]).1
          (subdivideChildren ⟨0, 4, 0, 4⟩ 1 0 0 [⟨1, 1⟩]).2.1
          (subdivideChildren ⟨0, 4, 0, 4⟩ 1 0 0 [⟨1, 1⟩]).2.2.1
          (subdivideChildren ⟨0, 4, 0, 4⟩ 1 0 0 [⟨1, 1⟩]).2.2.2 ⟨2, 2⟩).1.1
        (tryFour (QuadTree.insertFuel 1)
          (subdivideChildren ⟨0, 4, 0, 4⟩ 1 0 0 [⟨1, 1⟩]).1
          (subdivideChildren ⟨0, 4, 0, 4⟩ 1 0 0 [⟨1, 1⟩]).2.1
          (subdivideChildren ⟨0, 4, 0, 4⟩ 1 0 0 [⟨1, 1⟩]).2.2.1
          (subdivideChildren ⟨0, 4, 0, 4⟩ 1 0 0 [⟨1, 1⟩]).2.2.2 ⟨2, 2⟩).1.2.1
        (tryFour (QuadTree.insertFuel 1)
          (subdivideChildren ⟨0, 4, 0, 4⟩ 1 0 0 [⟨1, 1⟩]).1
          (subdivideChildren ⟨0, 4, 0, 4⟩ 1 0 0 [⟨1, 1⟩]).2.1
          (subdivideChildren ⟨0, 4, 0, 4⟩ 1 0 0 [⟨1, 1⟩]).2.2.1
          (subdivideChildren ⟨0, 4, 0, 4⟩ 1 0 0 [⟨1, 1⟩]).2.2.2 ⟨2, 2⟩).1.2.2.1
        (tryFour (QuadTree.insertFuel 1)
          (subdivideChildren ⟨0, 4, 0, 4⟩ 1 0 0 [⟨1, 1⟩]).1
          (subdivideChildren ⟨0, 4, 0, 4⟩ 1 0 0 [⟨1, 1⟩]).2.1
          (subdivideChildren ⟨0, 4, 0, 4⟩ 1 0 0 [⟨1, 1⟩]).2.2.1
          (subdivideChildren ⟨0, 4, 0, 4⟩ 1 0 0 [⟨1, 1⟩]).2.2.2 ⟨2, 2⟩).1.2.2.2 := by
    show (insertCore (QuadTree.insertFuel 1)
      (QuadTree.leaf ⟨0, 4, 0, 4⟩ 1 0 0 [⟨1, 1⟩]) ⟨2, 2⟩).1 = _
    unfold insertCore
    dsimp only
    rw [if_pos (by decide : (⟨0, 4, 0, 4⟩ : AABB).containsP ⟨2, 2⟩),
      if_neg (by decide : ¬ ([(⟨1, 1⟩ : QPoint)].length < 1))]
  rw [hstep]
  exact ⟨_, _, _, _, rfl, rfl, rfl, rfl⟩

end IDV
